import Mathlib

/-!
A shallow embedding of the `agglutinator` copying incremental semi-space
garbage collector (`src/lib.rs`) and proofs about it.

Modelling conventions:

* Addresses (`*mut u8`, `ObjPtr`) are natural numbers; the null pointer is `0`.
  Rust's `wrapping_byte_add` / `wrapping_byte_sub` on `usize` are modelled
  explicitly modulo `2 ^ 64` (`wadd`, `wsub`); plain `byte_add` / `byte_sub`
  (whose overflow is undefined behaviour in the source and never happens in a
  real run) are modelled by the corresponding `Nat` operations.
* Process memory is a word store `mem : Nat → Nat`: `mem a` is the machine
  word stored at byte address `a`.  The collector reads and writes memory only
  at object headers (`mem p`) and field slots (`mem (p + 8 + 8*i)`), matching
  the layout of `StellaObj` on x86-64 (4-byte `c_int` header, fields at
  offset 8, `FIELD_SIZE = 8`).  Headers are non-negative, so the `as usize`
  cast of the `c_int` header is the identity on the modelled values.
* The host globals `FIELD_COUNT_MASK` and `max_alloc_size` are parameters
  (`fcMask` is carried in the collector state; `TAG_MASK` is used only by the
  debug dumper, which no claim concerns, and is omitted).
* `std::alloc::alloc` is modelled by a ghost bump allocator: the collector
  state carries `fresh`, the next address malloc would return, and each
  `Space` allocation consumes `size + ALIGNMENT` bytes of it (real allocators
  separate blocks with metadata, so two live blocks are never adjacent).
* Panics (`panic!("out of memory")`, the `assert!` in `forward`, the
  `expect` in `gc_pop_root`) are modelled by `Except String`; unbounded
  loops (`chase`, the scan loop of `run_gc`) take a fuel argument and report
  exhaustion as the distinguished error `"fuel"`, which is not a behaviour of
  the program and never occurs in the concrete runs below.
-/

/-- Machine word modulus: pointers and sizes are 64-bit `usize` values. -/
def W : Nat := 2 ^ 64

/-- Wrapping 64-bit addition, as `usize::wrapping_add` (`wrapping_byte_add`). -/
def wadd (a b : Nat) : Nat := (a + b) % W

/-- Wrapping 64-bit subtraction, as `usize::wrapping_sub` (`wrapping_byte_sub`). -/
def wsub (a b : Nat) : Nat := (a + (W - b % W)) % W

/-- The size of a pointer-sized field (`FIELD_SIZE = size_of::<*const c_void>()`). -/
def FIELD_SIZE : Nat := 8

/-- Offset of the `fields` array inside `StellaObj` (`offset_of!(StellaObj, fields)`):
the 4-byte `c_int` header is padded to the 8-byte pointer alignment. -/
def headerOffset : Nat := 8

/-- Alignment of `StellaObj` on x86-64 (it contains pointer-aligned fields). -/
def objAlign : Nat := 8

/-- The alignment of allocated objects: `max(align_of::<StellaObj>(), 8)`. -/
def ALIGNMENT : Nat := if objAlign > 8 then objAlign else 8

/-- Rounds `size` up so it has the given alignment (`align_up`). -/
def align_up (size align : Nat) : Nat :=
  let misalignment := size % align
  size + if misalignment > 0 then align - misalignment else 0

/-- Rounds `size` down so it has the given alignment (`align_down`). -/
def align_down (size align : Nat) : Nat := size - size % align

/-- A contiguous bounded chunk of memory; one of the two semi-spaces (`Space`). -/
structure Space where
  start : Nat
  size : Nat
deriving DecidableEq

/-- The pointer one past the last byte of the semi-space (`Space::end`). -/
def Space.end_ (s : Space) : Nat := s.start + s.size

/-- Whether a pointer points into this semi-space (`Space::contains`):
half-open range, and `contains` of the null pointer is `false`. -/
def Space.contains (s : Space) (p : Nat) : Bool :=
  decide (p ≠ 0) && decide (s.start ≤ p) && decide (p < s.end_)

/-- `Space::alloc(size)`, with the ghost allocator address `base` supplied by
the caller: the requested size is clamped to at least 1 and rounded down to
`ALIGNMENT`; a resulting size of zero yields the null space, otherwise the
block starts at `base`. -/
def Space.allocAt (base size : Nat) : Space :=
  let size := align_down (max size 1) ALIGNMENT
  if size = 0 then ⟨0, 0⟩ else ⟨base, size⟩

/-- Garbage collection statistics (`Stats`). -/
structure Stats where
  reads : Nat := 0
  writes : Nat := 0
  readBarriers : Nat := 0
  allTimeAllocated : Nat := 0
  allTimeAllocatedObjs : Nat := 0
  maxUsed : Nat := 0
  gcCycles : Nat := 0
deriving DecidableEq

/-- Memory regions an address may belong to (`SpaceClass`). -/
inductive SpaceClass where
  | fromSp : Nat → SpaceClass
  | toSp : Nat → SpaceClass
  | unmanaged : SpaceClass
deriving DecidableEq

/-- The collector state (`Gc`), together with the process memory it operates
on and the ghost malloc cursor `fresh`. -/
structure Gc where
  fromSpace : Option Space
  toSpace : Space
  roots : List Nat
  gcInProgress : Bool
  scan : Nat
  next : Nat
  limit : Nat
  stats : Stats
  mem : Nat → Nat
  fcMask : Nat
  fresh : Nat

/-- Store word `v` at byte address `a` (`ptr::write`). -/
def Gc.writeMem (g : Gc) (a v : Nat) : Gc :=
  { g with mem := fun x => if x = a then v else g.mem x }

/-- `ObjPtr::field_count`: `(header & FIELD_COUNT_MASK) >> 4`. -/
def Gc.fieldCount (g : Gc) (p : Nat) : Nat := (g.mem p &&& g.fcMask) >>> 4

/-- `ObjPtr::size`: header plus `field_count` pointer-sized fields. -/
def Gc.objSize (g : Gc) (p : Nat) : Nat := headerOffset + Gc.fieldCount g p * FIELD_SIZE

/-- Address of the `i`-th field slot of the object at `p` (`ObjPtr::field`). -/
def fieldAddr (p i : Nat) : Nat := p + headerOffset + i * FIELD_SIZE

/-- Load the `i`-th field of the object at `p`. -/
def Gc.readField (g : Gc) (p i : Nat) : Nat := g.mem (fieldAddr p i)

/-- Whether `p` points into the from-space
(`self.from_space.as_ref().is_some_and(|s| s.contains(p))`). -/
def Gc.inFromSpace (g : Gc) (p : Nat) : Bool :=
  match g.fromSpace with
  | some fs => fs.contains p
  | none => false

/-- An upper bound on the size of any object decodable under the header mask
`fcMask`: the field count is at most `fcMask >>> 4`. -/
def Gc.maxObj (g : Gc) : Nat := headerOffset + (g.fcMask >>> 4) * FIELD_SIZE

/-- `Gc::new`: allocate the initial to-space of `maxAllocSize` bytes at the
ghost malloc address `base`.  Note that `scan` is initialised with
`Default::default()`, the null pointer, not with `to_space.start`. -/
def Gc.new (maxAllocSize fcMask base : Nat) : Gc :=
  let tsp := Space.allocAt base maxAllocSize
  { fromSpace := none
    toSpace := tsp
    roots := []
    gcInProgress := false
    scan := 0
    next := tsp.start
    limit := tsp.end_
    stats := {}
    mem := fun _ => 0
    fcMask := fcMask
    fresh := base + tsp.size + ALIGNMENT }

/-- `Gc::alloc_at_next`: bump allocation at `next`, guarded by
`!limit.is_null() && next.wrapping_byte_add(size) < limit` (strict). -/
def Gc.alloc_at_next (g : Gc) (size : Nat) : Option (Nat × Gc) :=
  if g.limit ≠ 0 ∧ wadd g.next size < g.limit then
    some (g.next, { g with next := g.next + size })
  else
    none

/-- `Gc::to_space_used_memory`. -/
def Gc.to_space_used_memory (g : Gc) : Nat :=
  (g.toSpace.end_ - g.limit) + (g.next - g.toSpace.start)

/-- `Gc::free_memory`. -/
def Gc.free_memory (g : Gc) : Nat := g.limit - g.next

/-- `Gc::used_memory`: from-space size (when present) plus used to-space. -/
def Gc.used_memory (g : Gc) : Nat :=
  (match g.fromSpace with
   | some s => s.size
   | none => 0) + Gc.to_space_used_memory g

/-- `Gc::register_alloc`: bump the all-time counters, then fold the current
`used_memory` into `max_used`. -/
def Gc.register_alloc (g : Gc) (size : Nat) : Gc :=
  { g with stats :=
      { g.stats with
        allTimeAllocated := g.stats.allTimeAllocated + size
        allTimeAllocatedObjs := g.stats.allTimeAllocatedObjs + 1
        maxUsed := max g.stats.maxUsed (Gc.used_memory g) } }

/-- `Gc::classify_space`. -/
def Gc.classify_space (g : Gc) (p : Nat) : SpaceClass :=
  match g.fromSpace with
  | some fs =>
      if fs.contains p then .fromSp (p - fs.start)
      else if g.toSpace.contains p then .toSp (p - g.toSpace.start)
      else .unmanaged
  | none =>
      if g.toSpace.contains p then .toSp (p - g.toSpace.start) else .unmanaged

/-- `Gc::record_write`: count the write iff the object is GC-managed. -/
def Gc.record_write (g : Gc) (p : Nat) : Gc :=
  match Gc.classify_space g p with
  | .fromSp _ => { g with stats := { g.stats with writes := g.stats.writes + 1 } }
  | .toSp _ => { g with stats := { g.stats with writes := g.stats.writes + 1 } }
  | .unmanaged => g

/-- The child-selection test inside the field loop of `Gc::chase`: pick the
field value `f` (overriding the previous candidate `sel`) iff `f` lies in
from-space and its first field does not point into to-space. -/
def Gc.chaseSelect (g : Gc) (f sel : Nat) : Nat :=
  if g.inFromSpace f && !(g.toSpace.contains (Gc.readField g f 0)) then f else sel

/-- The field-copying loop inside `Gc::chase`: copy fields `i, …, i+k-1` of
the object at `p` to the copy at `wr`, remembering (last one wins) the most
recent field that points into from-space and is not yet forwarded.  The
second component is the chase candidate (`next_to_chase`, null = `0`).  As in
the source, the selection test runs after the field has been stored into the
copy. -/
def Gc.chaseFields (p wr : Nat) : Nat → Nat → Gc × Nat → Gc × Nat
  | _, 0, st => st
  | i, k + 1, st =>
      Gc.chaseFields p wr (i + 1) k
        (Gc.writeMem st.1 (fieldAddr wr i) (Gc.readField st.1 p i),
         Gc.chaseSelect (Gc.writeMem st.1 (fieldAddr wr i) (Gc.readField st.1 p i))
           (Gc.readField st.1 p i) st.2)

/-- One iteration of the loop body of `Gc::chase`, after the bump check has
passed: commit the bumped `next`, copy the header (`ptr::copy` of the
one-word `StellaObj`) and the fields to the reserved copy at the old `next`,
and install the forwarding pointer into field 0 of the original.  Returns the
new state and the selected chase candidate. -/
def Gc.chaseStep (g : Gc) (p : Nat) : Gc × Nat :=
  let wr := g.next
  let g1 := { g with next := wadd g.next (Gc.objSize g p) }
  let g2 := Gc.writeMem g1 wr (g1.mem p)
  let st := Gc.chaseFields p wr 0 (Gc.fieldCount g2 p) (g2, 0)
  (Gc.writeMem st.1 (fieldAddr p 0) wr, st.2)

/-- `Gc::chase`: the semi-DFS copying walk.  Each iteration reserves room at
`next` (panicking with "out of memory" when the bump passes `limit`), runs
`chaseStep`, and follows the selected uncopied child, if any. -/
def Gc.chase : Nat → Gc → Nat → Except String Gc
  | 0, _, _ => .error "fuel"
  | fuel + 1, g, p =>
      if wadd g.next (Gc.objSize g p) > g.limit then .error "out of memory"
      else
        if (Gc.chaseStep g p).2 = 0 then .ok (Gc.chaseStep g p).1
        else Gc.chase fuel (Gc.chaseStep g p).1 (Gc.chaseStep g p).2

/-- `Gc::forward`: forward `p` if it points into from-space, returning it
unchanged otherwise; the trailing `assert!` that the result lies in to-space
is modelled as the error "assertion failed". -/
def Gc.forward (fuel : Nat) (g : Gc) (p : Nat) : Except String (Nat × Gc) :=
  if g.inFromSpace p then
    if g.toSpace.contains (Gc.readField g p 0) then .ok (Gc.readField g p 0, g)
    else do
      let g' ← Gc.chase fuel g p
      if g'.toSpace.contains (Gc.readField g' p 0) then .ok (Gc.readField g' p 0, g')
      else .error "assertion failed"
  else .ok (p, g)

/-- The root-forwarding loop of `Gc::begin_gc`: for each root slot in order,
load the pointer, forward it, and write it back. -/
def Gc.processRoots (fuel : Nat) : List Nat → Gc → Except String Gc
  | [], g => .ok g
  | r :: rs, g => do
      let vg ← Gc.forward fuel g (g.mem r)
      Gc.processRoots fuel rs (Gc.writeMem vg.2 r vg.1)

/-- `Gc::begin_gc`: raise `gc_in_progress`, count the cycle, swap the spaces
(the vacant `from_space` slot is first filled with the default null space),
reallocate the to-space when the sizes differ (they always do after a
completed cycle, because the slot was `None`), reset the three pointers and
forward every root. -/
def Gc.begin_gc (fuel : Nat) (g : Gc) : Except String Gc :=
  let g1 := { g with
    gcInProgress := true
    stats := { g.stats with gcCycles := g.stats.gcCycles + 1 } }
  let newSize := g1.toSpace.size
  let g2 := { g1 with fromSpace := some g1.toSpace,
                      toSpace := g1.fromSpace.getD ⟨0, 0⟩ }
  let g3 :=
    if newSize ≠ g2.toSpace.size then
      let sp := Space.allocAt g2.fresh newSize
      { g2 with toSpace := sp, fresh := g2.fresh + sp.size + ALIGNMENT }
    else g2
  let g4 := { g3 with next := g3.toSpace.start, scan := g3.toSpace.start,
                      limit := g3.toSpace.end_ }
  Gc.processRoots fuel g4.roots g4

/-- The field loop of the scan step in `Gc::run_gc`: forward fields
`i, …, i+k-1` of the object at `p`, writing each result back. -/
def Gc.forwardFields (fuel p : Nat) : Nat → Nat → Gc → Except String Gc
  | _, 0, g => .ok g
  | i, k + 1, g => do
      let vg ← Gc.forward fuel g (Gc.readField g p i)
      Gc.forwardFields fuel p (i + 1) k (Gc.writeMem vg.2 (fieldAddr p i) vg.1)

/-- The scan loop of `Gc::run_gc`: while `scan < next`, return as soon as
`scan > target`, otherwise scan one object and advance `scan` by its size;
when the loop drains (`scan ≥ next`) the cycle ends: `gc_in_progress` is
cleared and the from-space is dropped. -/
def Gc.scanLoop (target : Nat) : Nat → Gc → Except String Gc
  | 0, _ => .error "fuel"
  | fuel + 1, g =>
      if g.scan < g.next then
        if g.scan > target then .ok g
        else do
          let g' ← Gc.forwardFields fuel g.scan 0 (Gc.fieldCount g g.scan) g
          Gc.scanLoop target fuel { g' with scan := g'.scan + Gc.objSize g' g.scan }
      else .ok { g with gcInProgress := false, fromSpace := none }

/-- `Gc::run_gc(n)`: scan with target `scan.wrapping_byte_add(n)`. -/
def Gc.run_gc (fuel : Nat) (g : Gc) (n : Nat) : Except String Gc :=
  Gc.scanLoop (wadd g.scan n) fuel g

/-- The in-cycle tail of `Gc::alloc` (lines after the idle fast path):
reserve `size` bytes from the `limit` end, panicking with "out of memory"
when either endpoint is null or the reservation would pass `next`; then fund
the scanner with `size` bytes of work and record the allocation. -/
def Gc.allocInCycle (fuel : Nat) (g : Gc) (size : Nat) : Except String (Nat × Gc) :=
  if g.limit = 0 ∨ g.next = 0 ∨ wsub g.limit size < g.next then .error "out of memory"
  else do
    let g2 ← Gc.run_gc fuel { g with limit := g.limit - size } size
    .ok (g.limit - size, Gc.register_alloc g2 size)

/-- `Gc::alloc`: round the size up to `ALIGNMENT`; when idle try the bump
fast path and otherwise begin a cycle; allocate in-cycle from the high end. -/
def Gc.alloc (fuel : Nat) (g : Gc) (size0 : Nat) : Except String (Nat × Gc) :=
  let size := align_up size0 ALIGNMENT
  if g.gcInProgress then Gc.allocInCycle fuel g size
  else
    match Gc.alloc_at_next g size with
    | some rg => .ok (rg.1, Gc.register_alloc rg.2 size)
    | none => do
        let g' ← Gc.begin_gc fuel g
        Gc.allocInCycle fuel g' size

/-- Increment `stats.reads`. -/
def Gc.bumpReads (g : Gc) : Gc :=
  { g with stats := { g.stats with reads := g.stats.reads + 1 } }

/-- Increment `stats.read_barriers`. -/
def Gc.bumpReadBarriers (g : Gc) : Gc :=
  { g with stats := { g.stats with readBarriers := g.stats.readBarriers + 1 } }

/-- `Gc::read_barrier`: count the read, load the field, and during a cycle
forward a from-space value, write it back and count the barrier. -/
def Gc.read_barrier (fuel : Nat) (g : Gc) (p idx : Nat) : Except String (Nat × Gc) :=
  if (Gc.bumpReads g).gcInProgress &&
      (Gc.bumpReads g).inFromSpace (Gc.readField (Gc.bumpReads g) p idx) then do
    let vg ← Gc.forward fuel (Gc.bumpReads g) (Gc.readField (Gc.bumpReads g) p idx)
    .ok (vg.1, Gc.bumpReadBarriers (Gc.writeMem vg.2 (fieldAddr p idx) vg.1))
  else .ok (Gc.readField (Gc.bumpReads g) p idx, Gc.bumpReads g)

/-- One mutator-visible operation on the collector.  `hostStore` is a raw
mutator store (spec §3: objects are "mutated only through host stores"); the
remaining constructors are the exported entry points `gc_alloc`,
`gc_read_barrier`, `gc_write_barrier`, `gc_push_root` and `gc_pop_root`. -/
inductive GcOp where
  | alloc : Nat → GcOp
  | readBarrier : Nat → Nat → GcOp
  | writeBarrier : Nat → GcOp
  | pushRoot : Nat → GcOp
  | popRoot : Nat → GcOp
  | hostStore : Nat → Nat → GcOp

/-- Apply one operation.  `gc_pop_root` panics on an empty root stack (its
release-mode behaviour; the `debug_assert_eq` is compiled out). -/
def Gc.applyOp (fuel : Nat) (g : Gc) : GcOp → Except String Gc
  | .alloc s => (Gc.alloc fuel g s).map (fun rg => rg.2)
  | .readBarrier p i => (Gc.read_barrier fuel g p i).map (fun rg => rg.2)
  | .writeBarrier p => .ok (Gc.record_write g p)
  | .pushRoot r => .ok { g with roots := g.roots ++ [r] }
  | .popRoot _ =>
      match g.roots.getLast? with
      | none => .error "popping from empty root stack"
      | some _ => .ok { g with roots := g.roots.dropLast }
  | .hostStore a v => .ok (Gc.writeMem g a v)

/-- Run a sequence of operations. -/
def Gc.runOps (fuel : Nat) (g : Gc) : List GcOp → Except String Gc
  | [] => .ok g
  | op :: ops => do
      let g' ← Gc.applyOp fuel g op
      Gc.runOps fuel g' ops

/-- Whether an `Except` computation succeeded. -/
def exIsOk {α : Type} : Except String α → Bool
  | .ok _ => true
  | .error _ => false

/-- The computation succeeded with a value satisfying `P`. -/
def exP {α : Type} (e : Except String α) (P : α → Prop) : Prop :=
  match e with
  | .ok a => P a
  | .error _ => False

/-! ### Basic lemmas about spaces and sizes -/

theorem Space.contains_iff (s : Space) (p : Nat) :
    s.contains p = true ↔ p ≠ 0 ∧ s.start ≤ p ∧ p < s.end_ := by
  simp [Space.contains, and_assoc]

theorem Space.contains_zero (s : Space) : s.contains 0 = false := by
  simp [Space.contains]

/-- Two byte ranges that do not overlap. -/
def Space.disjoint (a b : Space) : Prop := a.end_ ≤ b.start ∨ b.end_ ≤ a.start

theorem Space.disjoint_symm {a b : Space} (h : Space.disjoint a b) :
    Space.disjoint b a := h.symm

theorem Space.disjoint_not_contains {a b : Space} {p : Nat}
    (hd : Space.disjoint a b) (ha : a.contains p = true) : b.contains p = false := by
  rw [Space.contains_iff] at ha
  rcases ha with ⟨-, h1, h2⟩
  rcases hd with hd | hd <;>
    · rw [← Bool.not_eq_true, Space.contains_iff]
      rintro ⟨-, h3, h4⟩
      unfold Space.end_ at *
      omega

theorem Gc.objSize_le_maxObj (g : Gc) (p : Nat) : Gc.objSize g p ≤ Gc.maxObj g := by
  unfold Gc.objSize Gc.maxObj Gc.fieldCount
  have h1 : g.mem p &&& g.fcMask ≤ g.fcMask := Nat.and_le_right
  have h2 : (g.mem p &&& g.fcMask) >>> 4 ≤ g.fcMask >>> 4 := by
    simp only [Nat.shiftRight_eq_div_pow]
    exact Nat.div_le_div_right h1
  have := Nat.mul_le_mul_right FIELD_SIZE h2
  omega

theorem Gc.headerOffset_le_objSize (g : Gc) (p : Nat) : headerOffset ≤ Gc.objSize g p := by
  unfold Gc.objSize; omega

/-! ### Frame lemmas: which parts of the state each routine can change -/

/-- Everything except `mem` and `next` is unchanged. -/
def Gc.sameShape (g g' : Gc) : Prop :=
  g'.fromSpace = g.fromSpace ∧ g'.toSpace = g.toSpace ∧ g'.roots = g.roots ∧
  g'.gcInProgress = g.gcInProgress ∧ g'.scan = g.scan ∧ g'.limit = g.limit ∧
  g'.stats = g.stats ∧ g'.fcMask = g.fcMask ∧ g'.fresh = g.fresh

theorem Gc.sameShape_refl (g : Gc) : Gc.sameShape g g :=
  ⟨rfl, rfl, rfl, rfl, rfl, rfl, rfl, rfl, rfl⟩

theorem Gc.sameShape_trans {x y z : Gc}
    (h12 : Gc.sameShape x y) (h23 : Gc.sameShape y z) : Gc.sameShape x z := by
  obtain ⟨a1, a2, a3, a4, a5, a6, a7, a8, a9⟩ := h12
  obtain ⟨b1, b2, b3, b4, b5, b6, b7, b8, b9⟩ := h23
  exact ⟨b1.trans a1, b2.trans a2, b3.trans a3, b4.trans a4, b5.trans a5,
         b6.trans a6, b7.trans a7, b8.trans a8, b9.trans a9⟩

theorem Gc.writeMem_shape (g : Gc) (a v : Nat) : Gc.sameShape g (Gc.writeMem g a v) :=
  ⟨rfl, rfl, rfl, rfl, rfl, rfl, rfl, rfl, rfl⟩

theorem Gc.writeMem_next (g : Gc) (a v : Nat) : (Gc.writeMem g a v).next = g.next := rfl

theorem Gc.writeMem_mem (g : Gc) (a v x : Nat) :
    (Gc.writeMem g a v).mem x = if x = a then v else g.mem x := rfl

theorem Gc.chaseFields_shape (p wr : Nat) :
    ∀ k i g sel, Gc.sameShape g (Gc.chaseFields p wr i k (g, sel)).1 ∧
      (Gc.chaseFields p wr i k (g, sel)).1.next = g.next := by
  intro k
  induction k with
  | zero => intro i g sel; exact ⟨Gc.sameShape_refl g, rfl⟩
  | succ k ih =>
      intro i g sel
      simp only [Gc.chaseFields]
      refine ⟨Gc.sameShape_trans ?_ (ih (i + 1) _ _).1, ?_⟩
      · exact Gc.writeMem_shape ..
      · rw [(ih (i + 1) _ _).2, Gc.writeMem_next]

theorem Gc.chaseStep_shape (g : Gc) (p : Nat) : Gc.sameShape g (Gc.chaseStep g p).1 := by
  unfold Gc.chaseStep
  refine Gc.sameShape_trans (Gc.sameShape_trans (Gc.sameShape_trans
    (y := { g with next := wadd g.next (Gc.objSize g p) }) ?_ (Gc.writeMem_shape ..))
    (Gc.chaseFields_shape ..).1) (Gc.writeMem_shape ..)
  exact ⟨rfl, rfl, rfl, rfl, rfl, rfl, rfl, rfl, rfl⟩

theorem Gc.chaseStep_next (g : Gc) (p : Nat) :
    (Gc.chaseStep g p).1.next = wadd g.next (Gc.objSize g p) := by
  unfold Gc.chaseStep
  rw [Gc.writeMem_next, (Gc.chaseFields_shape ..).2, Gc.writeMem_next]

theorem Gc.chase_shape :
    ∀ fuel g p g', Gc.chase fuel g p = .ok g' → Gc.sameShape g g' := by
  intro fuel
  induction fuel with
  | zero => intro g p g' h; simp [Gc.chase] at h
  | succ fuel ih =>
      intro g p g' h
      rw [Gc.chase] at h
      split at h
      · exact absurd h (by simp)
      · split at h
        · cases h; exact Gc.chaseStep_shape g p
        · exact Gc.sameShape_trans (Gc.chaseStep_shape g p) (ih _ _ _ h)

theorem exBind_ok {α β : Type} (a : α) (f : α → Except String β) :
    (Except.ok a >>= f) = f a := rfl

theorem exBind_error {α β : Type} (e : String) (f : α → Except String β) :
    ((Except.error e : Except String α) >>= f) = .error e := rfl

theorem Gc.forward_shape {fuel : Nat} {g : Gc} {p v : Nat} {g' : Gc}
    (h : Gc.forward fuel g p = .ok (v, g')) : Gc.sameShape g g' := by
  unfold Gc.forward at h
  split at h
  · split at h
    · cases h; exact Gc.sameShape_refl g
    · cases hc : Gc.chase fuel g p with
      | error e => rw [hc] at h; exact absurd h (by simp [exBind_error])
      | ok g1 =>
          rw [hc] at h
          simp only [exBind_ok] at h
          split at h
          · cases h; exact Gc.chase_shape fuel g p _ hc
          · cases h
  · cases h; exact Gc.sameShape_refl g

theorem Gc.forward_cases {fuel : Nat} {g : Gc} {p v : Nat} {g' : Gc}
    (h : Gc.forward fuel g p = .ok (v, g')) :
    g.toSpace.contains v = true ∨ (v = p ∧ g' = g ∧ Gc.inFromSpace g p = false) := by
  unfold Gc.forward at h
  split at h
  next hin =>
    split at h
    next hto => cases h; exact Or.inl hto
    next =>
      cases hc : Gc.chase fuel g p with
      | error e => rw [hc] at h; exact absurd h (by simp [exBind_error])
      | ok g1 =>
          rw [hc] at h
          simp only [exBind_ok] at h
          split at h
          next hto' =>
            cases h
            obtain ⟨-, hts, -⟩ := Gc.chase_shape fuel g p g' hc
            rw [hts] at hto'
            exact Or.inl hto'
          next => cases h
  next hin => cases h; exact Or.inr ⟨rfl, rfl, by simpa using hin⟩

theorem Gc.forward_not_from {fuel : Nat} {g : Gc} {p : Nat}
    (h : p = 0 ∨ Gc.inFromSpace g p = false) : Gc.forward fuel g p = .ok (p, g) := by
  have hin : Gc.inFromSpace g p = false := by
    rcases h with rfl | h
    · unfold Gc.inFromSpace
      cases g.fromSpace with
      | none => rfl
      | some fs => exact Space.contains_zero fs
    · exact h
  unfold Gc.forward
  rw [hin]
  simp

/-! ### The conditional chase lemmas: write sets and copy preservation -/

theorem fieldAddr_def (p i : Nat) : fieldAddr p i = p + 8 + i * 8 := rfl

theorem Gc.objSize_def (g : Gc) (p : Nat) :
    Gc.objSize g p = 8 + Gc.fieldCount g p * 8 := rfl

theorem Space.end_def (s : Space) : s.end_ = s.start + s.size := rfl

theorem Gc.inFromSpace_congr {g g' : Gc} (h : g'.fromSpace = g.fromSpace) (x : Nat) :
    Gc.inFromSpace g' x = Gc.inFromSpace g x := by
  unfold Gc.inFromSpace
  rw [h]

theorem Gc.inFromSpace_ne_zero {g : Gc} {x : Nat} (h : Gc.inFromSpace g x = true) :
    x ≠ 0 := by
  unfold Gc.inFromSpace at h
  rcases hf : g.fromSpace with - | fs
  · rw [hf] at h; cases h
  · rw [hf] at h
    exact ((Space.contains_iff fs x).mp h).1

theorem Gc.chaseFields_writes (p wr : Nat) :
    ∀ k i g sel a, (Gc.chaseFields p wr i k (g, sel)).1.mem a ≠ g.mem a →
      ∃ j, i ≤ j ∧ j < i + k ∧ a = fieldAddr wr j := by
  intro k
  induction k with
  | zero => intro i g sel a ha; exact absurd rfl ha
  | succ k ih =>
      intro i g sel a ha
      rw [Gc.chaseFields] at ha
      by_cases hne :
          (Gc.chaseFields p wr (i + 1) k
            (Gc.writeMem g (fieldAddr wr i) (Gc.readField g p i),
             Gc.chaseSelect (Gc.writeMem g (fieldAddr wr i) (Gc.readField g p i))
               (Gc.readField g p i) sel)).1.mem a =
          (Gc.writeMem g (fieldAddr wr i) (Gc.readField g p i)).mem a
      · rw [hne] at ha
        rw [Gc.writeMem_mem] at ha
        by_cases haddr : a = fieldAddr wr i
        · exact ⟨i, le_refl i, by omega, haddr⟩
        · rw [if_neg haddr] at ha; exact absurd rfl ha
      · obtain ⟨j, hj1, hj2, hj3⟩ := ih (i + 1) _ _ a hne
        exact ⟨j, by omega, by omega, hj3⟩

theorem Gc.chaseSelect_cases (g : Gc) (f sel : Nat) :
    Gc.chaseSelect g f sel = sel ∨
      (Gc.chaseSelect g f sel = f ∧ Gc.inFromSpace g f = true) := by
  unfold Gc.chaseSelect
  split
  next hsel => exact Or.inr ⟨rfl, ((Bool.and_eq_true _ _).mp hsel).1⟩
  next => exact Or.inl rfl

theorem Gc.chaseFields_sel (p wr : Nat) :
    ∀ k i g sel, (Gc.chaseFields p wr i k (g, sel)).2 = sel ∨
      ((Gc.chaseFields p wr i k (g, sel)).2 ≠ 0 ∧
        Gc.inFromSpace g (Gc.chaseFields p wr i k (g, sel)).2 = true) := by
  intro k
  induction k with
  | zero => intro i g sel; exact Or.inl rfl
  | succ k ih =>
      intro i g sel
      rw [Gc.chaseFields]
      have hcongr := @Gc.inFromSpace_congr g
        (Gc.writeMem g (fieldAddr wr i) (Gc.readField g p i)) rfl
      rcases ih (i + 1)
          (Gc.writeMem g (fieldAddr wr i) (Gc.readField g p i))
          (Gc.chaseSelect (Gc.writeMem g (fieldAddr wr i) (Gc.readField g p i))
            (Gc.readField g p i) sel) with heq | hne
      · rw [heq]
        rcases Gc.chaseSelect_cases (Gc.writeMem g (fieldAddr wr i) (Gc.readField g p i))
            (Gc.readField g p i) sel with hs | hs
        · rw [hs]; exact Or.inl rfl
        · rw [hs.1]
          have hin : Gc.inFromSpace g (Gc.readField g p i) = true := by
            rw [← hcongr]; exact hs.2
          exact Or.inr ⟨Gc.inFromSpace_ne_zero hin, hin⟩
      · exact Or.inr ⟨hne.1, by rw [← hcongr]; exact hne.2⟩

theorem Gc.chaseFields_copy (p wr : Nat) :
    ∀ k i g sel,
      (∀ j j', j < i + k → j' < i + k → fieldAddr wr j ≠ fieldAddr p j') →
      ∀ j, i ≤ j → j < i + k →
        (Gc.chaseFields p wr i k (g, sel)).1.mem (fieldAddr wr j) =
          g.mem (fieldAddr p j) := by
  intro k
  induction k with
  | zero => intro i g sel hal j hj1 hj2; omega
  | succ k ih =>
      intro i g sel hal j hj1 hj2
      rw [Gc.chaseFields]
      rcases Nat.eq_or_lt_of_le hj1 with heq | hlt
      · subst heq
        have hpres : (Gc.chaseFields p wr (i + 1) k
              (Gc.writeMem g (fieldAddr wr i) (Gc.readField g p i),
               Gc.chaseSelect (Gc.writeMem g (fieldAddr wr i) (Gc.readField g p i))
                 (Gc.readField g p i) sel)).1.mem (fieldAddr wr i) =
            (Gc.writeMem g (fieldAddr wr i) (Gc.readField g p i)).mem (fieldAddr wr i) := by
          by_contra hne
          obtain ⟨j', hj'1, hj'2, hj'3⟩ := Gc.chaseFields_writes p wr k (i + 1) _ _ _ hne
          rw [fieldAddr_def, fieldAddr_def] at hj'3
          omega
        rw [hpres, Gc.writeMem_mem, if_pos rfl]
        rfl
      · have step := ih (i + 1)
          (Gc.writeMem g (fieldAddr wr i) (Gc.readField g p i))
          (Gc.chaseSelect (Gc.writeMem g (fieldAddr wr i) (Gc.readField g p i))
            (Gc.readField g p i) sel)
          (fun a b ha hb => hal a b (by omega) (by omega)) j (by omega) (by omega)
        rw [step, Gc.writeMem_mem, if_neg]
        exact fun hcon => hal i j (by omega) (by omega) hcon.symm

theorem headerOffset_eq : headerOffset = 8 := rfl

theorem FIELD_SIZE_eq : FIELD_SIZE = 8 := rfl

theorem ALIGNMENT_eq : ALIGNMENT = 8 := rfl

theorem Gc.inFromSpace_some {g : Gc} {fs : Space} {x : Nat}
    (hfs : g.fromSpace = some fs) (h : Gc.inFromSpace g x = true) :
    fs.contains x = true := by
  unfold Gc.inFromSpace at h
  rw [hfs] at h
  exact h

theorem Gc.chaseStep_eq (g : Gc) (p : Nat) :
    Gc.chaseStep g p =
      (Gc.writeMem
        (Gc.chaseFields p g.next 0
          (Gc.fieldCount
            (Gc.writeMem { g with next := wadd g.next (Gc.objSize g p) } g.next (g.mem p)) p)
          (Gc.writeMem { g with next := wadd g.next (Gc.objSize g p) } g.next (g.mem p),
           0)).1
        (fieldAddr p 0) g.next,
       (Gc.chaseFields p g.next 0
          (Gc.fieldCount
            (Gc.writeMem { g with next := wadd g.next (Gc.objSize g p) } g.next (g.mem p)) p)
          (Gc.writeMem { g with next := wadd g.next (Gc.objSize g p) } g.next (g.mem p),
           0)).2) := rfl

/-- The well-formedness bundle under which `chase` is run during a cycle: the
from-space exists and is separated (with room for the one-past-the-object
forwarding-pointer write) from the to-space, `next` lies inside the to-space,
`limit` does not pass its end, and addresses stay below `2 ^ 64`. -/
structure ChaseInv (g : Gc) (fs : Space) : Prop where
  hfs : g.fromSpace = some fs
  hdisj : fs.end_ + headerOffset ≤ g.toSpace.start ∨ g.toSpace.end_ ≤ fs.start
  hlow : g.toSpace.start ≤ g.next
  hhigh : g.next ≤ g.toSpace.end_
  hlimit : g.limit ≤ g.toSpace.end_
  hW : g.toSpace.end_ + Gc.maxObj g < W

theorem Gc.chaseStep_spec (g : Gc) (p : Nat) (fs : Space) (inv : ChaseInv g fs) :
    (Gc.chaseStep g p).1.next = g.next + Gc.objSize g p ∧
    (∀ a, (Gc.chaseStep g p).1.mem a ≠ g.mem a →
      (g.next ≤ a ∧ a < g.next + Gc.objSize g p) ∨ a = fieldAddr p 0) ∧
    ((Gc.chaseStep g p).2 = 0 ∨ fs.contains (Gc.chaseStep g p).2 = true) := by
  have hszle : Gc.objSize g p ≤ Gc.maxObj g := Gc.objSize_le_maxObj g p
  have hsz8 : 8 ≤ Gc.objSize g p := by rw [Gc.objSize_def]; omega
  have hnW : g.next + Gc.objSize g p < W := by
    have h1 := inv.hhigh
    have h2 := inv.hW
    omega
  have hwadd : wadd g.next (Gc.objSize g p) = g.next + Gc.objSize g p := by
    unfold wadd; exact Nat.mod_eq_of_lt hnW
  have hqp : (Gc.writeMem { g with next := wadd g.next (Gc.objSize g p) }
      g.next (g.mem p)).mem p = g.mem p := by
    rw [Gc.writeMem_mem]; split <;> rfl
  have hfcq : Gc.fieldCount
      (Gc.writeMem { g with next := wadd g.next (Gc.objSize g p) } g.next (g.mem p)) p =
      Gc.fieldCount g p := by
    unfold Gc.fieldCount
    rw [hqp]
    rfl
  rw [Gc.chaseStep_eq]
  dsimp only
  refine ⟨?_, ?_, ?_⟩
  · rw [Gc.writeMem_next, (Gc.chaseFields_shape ..).2, Gc.writeMem_next]
    exact hwadd
  · intro a ha
    rw [Gc.writeMem_mem] at ha
    by_cases h0 : a = fieldAddr p 0
    · exact Or.inr h0
    · rw [if_neg h0] at ha
      by_cases h1 :
          (Gc.chaseFields p g.next 0
            (Gc.fieldCount
              (Gc.writeMem { g with next := wadd g.next (Gc.objSize g p) } g.next (g.mem p)) p)
            (Gc.writeMem { g with next := wadd g.next (Gc.objSize g p) } g.next (g.mem p),
             0)).1.mem a =
          (Gc.writeMem { g with next := wadd g.next (Gc.objSize g p) } g.next (g.mem p)).mem a
      · rw [h1, Gc.writeMem_mem] at ha
        by_cases h2 : a = g.next
        · subst h2; left; omega
        · rw [if_neg h2] at ha; exact absurd rfl ha
      · obtain ⟨j, hj0, hj1, hj2⟩ := Gc.chaseFields_writes p g.next _ 0 _ _ a h1
        rw [hfcq] at hj1
        subst hj2
        left
        rw [fieldAddr_def, Gc.objSize_def]
        omega
  · rcases Gc.chaseFields_sel p g.next
        (Gc.fieldCount
          (Gc.writeMem { g with next := wadd g.next (Gc.objSize g p) } g.next (g.mem p)) p) 0
        (Gc.writeMem { g with next := wadd g.next (Gc.objSize g p) } g.next (g.mem p)) 0
        with hs | hs
    · exact Or.inl hs
    · right
      have hg := hs.2
      rw [@Gc.inFromSpace_congr g
        (Gc.writeMem { g with next := wadd g.next (Gc.objSize g p) } g.next (g.mem p)) rfl]
        at hg
      exact Gc.inFromSpace_some inv.hfs hg

theorem Gc.chase_main :
    ∀ fuel g p g' fs, ChaseInv g fs → fs.contains p = true →
      Gc.chase fuel g p = .ok g' →
      g.next ≤ g'.next ∧ g'.next ≤ g.limit ∧
      (∀ a, g'.mem a ≠ g.mem a →
        (g.next ≤ a ∧ a < g'.next) ∨
        (fs.start + headerOffset ≤ a ∧ a < fs.end_ + headerOffset)) := by
  intro fuel
  induction fuel with
  | zero => intro g p g' fs inv hp h; simp [Gc.chase] at h
  | succ fuel ih =>
      intro g p g' fs inv hp h
      rw [Gc.chase] at h
      split at h
      · exact absurd h (by simp)
      next hguard =>
        have hszle : Gc.objSize g p ≤ Gc.maxObj g := Gc.objSize_le_maxObj g p
        have hsz8 : 8 ≤ Gc.objSize g p := by rw [Gc.objSize_def]; omega
        have hnW : g.next + Gc.objSize g p < W := by
          have h1 := inv.hhigh; have h2 := inv.hW; omega
        have hwadd : wadd g.next (Gc.objSize g p) = g.next + Gc.objSize g p := by
          unfold wadd; exact Nat.mod_eq_of_lt hnW
        rw [hwadd] at hguard
        have hbump : g.next + Gc.objSize g p ≤ g.limit := by omega
        obtain ⟨hnext, hwr, hsel⟩ := Gc.chaseStep_spec g p fs inv
        obtain ⟨sfrom, sto, -, -, -, slimit, -, sfc, -⟩ := Gc.chaseStep_shape g p
        have hple := (Space.contains_iff fs p).mp hp
        have hinstall : ∀ a : Nat, a = fieldAddr p 0 →
            fs.start + headerOffset ≤ a ∧ a < fs.end_ + headerOffset := by
          intro a haeq
          subst haeq
          rw [fieldAddr_def, headerOffset_eq]
          omega
        split at h
        next hz =>
          cases h
          rw [hnext]
          refine ⟨by omega, hbump, ?_⟩
          intro a ha
          rcases hwr a ha with hL | hR
          · exact Or.inl hL
          · exact Or.inr (hinstall a hR)
        next hz =>
          have hp2 : fs.contains (Gc.chaseStep g p).2 = true := by
            rcases hsel with h0 | h0
            · exact absurd h0 hz
            · exact h0
          have hinv2 : ChaseInv (Gc.chaseStep g p).1 fs := by
            refine ⟨?_, ?_, ?_, ?_, ?_, ?_⟩
            · rw [sfrom]; exact inv.hfs
            · rw [sto]; exact inv.hdisj
            · rw [sto, hnext]; have := inv.hlow; omega
            · rw [sto, hnext]; have := inv.hlimit; omega
            · rw [sto, slimit]; exact inv.hlimit
            · rw [sto]
              show _ + Gc.maxObj _ < W
              unfold Gc.maxObj
              rw [sfc]
              exact inv.hW
          obtain ⟨ih1, ih2, ih3⟩ := ih _ _ _ fs hinv2 hp2 h
          rw [hnext] at ih1
          rw [slimit] at ih2
          refine ⟨by omega, ih2, ?_⟩
          intro a ha
          by_cases hmid : g'.mem a = (Gc.chaseStep g p).1.mem a
          · rw [hmid] at ha
            rcases hwr a ha with hL | hR
            · left; omega
            · exact Or.inr (hinstall a hR)
          · rcases ih3 a hmid with hL | hR
            · rw [hnext] at hL; left; omega
            · exact Or.inr hR

/-- The state of `chaseStep` after committing the bump and copying the
header word (used to phrase lemmas about the field-copy loop). -/
def Gc.chaseHdr (g : Gc) (p : Nat) : Gc :=
  Gc.writeMem { g with next := wadd g.next (Gc.objSize g p) } g.next (g.mem p)

theorem Gc.chaseStep_eq2 (g : Gc) (p : Nat) :
    Gc.chaseStep g p =
      (Gc.writeMem
        (Gc.chaseFields p g.next 0 (Gc.fieldCount (Gc.chaseHdr g p) p)
          (Gc.chaseHdr g p, 0)).1 (fieldAddr p 0) g.next,
       (Gc.chaseFields p g.next 0 (Gc.fieldCount (Gc.chaseHdr g p) p)
          (Gc.chaseHdr g p, 0)).2) := rfl

theorem Gc.chaseHdr_fieldCount (g : Gc) (p : Nat) :
    Gc.fieldCount (Gc.chaseHdr g p) p = Gc.fieldCount g p := by
  unfold Gc.fieldCount Gc.chaseHdr
  rw [Gc.writeMem_mem]
  split <;> rfl

theorem Gc.chaseHdr_mem (g : Gc) (p a : Nat) (hne : a ≠ g.next) :
    (Gc.chaseHdr g p).mem a = g.mem a := by
  unfold Gc.chaseHdr
  rw [Gc.writeMem_mem, if_neg hne]

theorem Gc.chaseStep_inv {g : Gc} {fs : Space} (p : Nat) (inv : ChaseInv g fs)
    (hbump : g.next + Gc.objSize g p ≤ g.limit) : ChaseInv (Gc.chaseStep g p).1 fs := by
  obtain ⟨sfrom, sto, -, -, -, slimit, -, sfc, -⟩ := Gc.chaseStep_shape g p
  have hnext := (Gc.chaseStep_spec g p fs inv).1
  refine ⟨?_, ?_, ?_, ?_, ?_, ?_⟩
  · rw [sfrom]; exact inv.hfs
  · rw [sto]; exact inv.hdisj
  · rw [sto, hnext]; have := inv.hlow; omega
  · rw [sto, hnext]; have := inv.hlimit; omega
  · rw [sto, slimit]; exact inv.hlimit
  · rw [sto]
    show _ + Gc.maxObj _ < W
    unfold Gc.maxObj
    rw [sfc]
    exact inv.hW

theorem Gc.chase_copy (fuel : Nat) (g : Gc) (p : Nat) (g' : Gc) (fs : Space)
    (inv : ChaseInv g fs) (hp : fs.contains p = true)
    (hfit : p + Gc.objSize g p ≤ fs.end_)
    (h : Gc.chase fuel g p = .ok g') :
    ∀ i, i < Gc.fieldCount g p →
      g'.mem (fieldAddr g.next i) = g.mem (fieldAddr p i) := by
  cases fuel with
  | zero => simp [Gc.chase] at h
  | succ fuel =>
      rw [Gc.chase] at h
      split at h
      · exact absurd h (by simp)
      next hguard =>
        intro i hi
        have hszle : Gc.objSize g p ≤ Gc.maxObj g := Gc.objSize_le_maxObj g p
        have hszdef := Gc.objSize_def g p
        have hnW : g.next + Gc.objSize g p < W := by
          have h1 := inv.hhigh; have h2 := inv.hW; omega
        have hwadd : wadd g.next (Gc.objSize g p) = g.next + Gc.objSize g p := by
          unfold wadd; exact Nat.mod_eq_of_lt hnW
        rw [hwadd] at hguard
        have hbump : g.next + Gc.objSize g p ≤ g.limit := by omega
        have hple := (Space.contains_iff fs p).mp hp
        have hlow := inv.hlow
        have hlimit := inv.hlimit
        have hdisj := inv.hdisj
        rw [headerOffset_eq] at hdisj
        -- The copy's field addresses lie strictly inside the to-space span,
        -- the original's strictly inside the from-space span.
        have hwrj : ∀ j, j < Gc.fieldCount g p →
            g.toSpace.start < fieldAddr g.next j ∧ fieldAddr g.next j < g.limit := by
          intro j hj
          rw [fieldAddr_def]
          omega
        have hpj : ∀ j, j < Gc.fieldCount g p →
            fs.start + 8 ≤ fieldAddr p j ∧ fieldAddr p j < fs.end_ := by
          intro j hj
          rw [fieldAddr_def]
          omega
        have hal : ∀ j j', j < 0 + Gc.fieldCount (Gc.chaseHdr g p) p →
            j' < 0 + Gc.fieldCount (Gc.chaseHdr g p) p →
            fieldAddr g.next j ≠ fieldAddr p j' := by
          intro j j' hj hj'
          rw [Gc.chaseHdr_fieldCount] at hj hj'
          obtain ⟨ha1, ha2⟩ := hwrj j (by omega)
          obtain ⟨hb1, hb2⟩ := hpj j' (by omega)
          omega
        have hcf := Gc.chaseFields_copy p g.next (Gc.fieldCount (Gc.chaseHdr g p) p) 0
          (Gc.chaseHdr g p) 0 hal i (by omega) (by rw [Gc.chaseHdr_fieldCount]; omega)
        have hqrd : (Gc.chaseHdr g p).mem (fieldAddr p i) = g.mem (fieldAddr p i) := by
          apply Gc.chaseHdr_mem
          obtain ⟨hb1, hb2⟩ := hpj i hi
          omega
        have hinst : (Gc.chaseStep g p).1.mem (fieldAddr g.next i) =
            g.mem (fieldAddr p i) := by
          rw [Gc.chaseStep_eq2]
          show (Gc.writeMem _ _ _).mem _ = _
          rw [Gc.writeMem_mem, if_neg, hcf, hqrd]
          obtain ⟨ha1, ha2⟩ := hwrj i hi
          obtain ⟨hb1, hb2⟩ := hpj 0 (by omega)
          simp only [fieldAddr_def] at ha1 ha2 hb1 hb2 ⊢
          omega
        split at h
        next hz =>
          cases h
          exact hinst
        next hz =>
          have hinv2 := Gc.chaseStep_inv p inv hbump
          have hp2 : fs.contains (Gc.chaseStep g p).2 = true := by
            rcases (Gc.chaseStep_spec g p fs inv).2.2 with h0 | h0
            · exact absurd h0 hz
            · exact h0
          obtain ⟨-, -, m3⟩ := Gc.chase_main fuel _ _ g' fs hinv2 hp2 h
          have hnext := (Gc.chaseStep_spec g p fs inv).1
          have hpres : g'.mem (fieldAddr g.next i) =
              (Gc.chaseStep g p).1.mem (fieldAddr g.next i) := by
            by_contra hne
            rcases m3 _ hne with ⟨hL1, -⟩ | ⟨hR1, hR2⟩
            · rw [hnext] at hL1
              obtain ⟨ha1, ha2⟩ := hwrj i hi
              simp only [fieldAddr_def] at hL1 ha1 ha2
              omega
            · rw [headerOffset_eq] at hR1 hR2
              obtain ⟨ha1, ha2⟩ := hwrj i hi
              omega
          rw [hpres]
          exact hinst

theorem ChaseInv.writeMem {g : Gc} {fs : Space} (inv : ChaseInv g fs) (a v : Nat) :
    ChaseInv (Gc.writeMem g a v) fs :=
  ⟨inv.hfs, inv.hdisj, inv.hlow, inv.hhigh, inv.hlimit, inv.hW⟩

theorem Gc.forward_main {fuel : Nat} {g : Gc} {p v : Nat} {g' : Gc} {fs : Space}
    (inv : ChaseInv g fs) (h : Gc.forward fuel g p = .ok (v, g')) :
    ChaseInv g' fs ∧ g.next ≤ g'.next ∧
    (∀ a, g'.mem a ≠ g.mem a →
      (g.next ≤ a ∧ a < g'.next ∧ g'.next ≤ g.limit) ∨
      (fs.start + headerOffset ≤ a ∧ a < fs.end_ + headerOffset)) := by
  unfold Gc.forward at h
  split at h
  next hin =>
    split at h
    · cases h
      exact ⟨inv, le_refl _, fun a ha => absurd rfl ha⟩
    · cases hc : Gc.chase fuel g p with
      | error e => rw [hc] at h; exact absurd h (by simp [exBind_error])
      | ok g1 =>
          rw [hc] at h
          simp only [exBind_ok] at h
          split at h
          · cases h
            have hpfs : fs.contains p = true := Gc.inFromSpace_some inv.hfs hin
            obtain ⟨m1, m2, m3⟩ := Gc.chase_main fuel g p g' fs inv hpfs hc
            obtain ⟨sfrom, sto, -, -, -, slimit, -, sfc, -⟩ :=
              Gc.chase_shape fuel g p g' hc
            have hinv' : ChaseInv g' fs := by
              refine ⟨?_, ?_, ?_, ?_, ?_, ?_⟩
              · rw [sfrom]; exact inv.hfs
              · rw [sto]; exact inv.hdisj
              · rw [sto]; have := inv.hlow; omega
              · rw [sto]; have := inv.hlimit; omega
              · rw [sto, slimit]; exact inv.hlimit
              · rw [sto]
                show _ + Gc.maxObj _ < W
                unfold Gc.maxObj
                rw [sfc]
                exact inv.hW
            refine ⟨hinv', m1, ?_⟩
            intro a ha
            rcases m3 a ha with ⟨hL1, hL2⟩ | hR
            · exact Or.inl ⟨hL1, hL2, m2⟩
            · exact Or.inr hR
          · cases h
  next hin =>
    cases h
    exact ⟨inv, le_refl _, fun a ha => absurd rfl ha⟩

/-- A root slot address that the collector's own writes can never touch: it
is outside the span of from-space forwarding-pointer writes and outside the
to-space. -/
def slotOK (fs tsp : Space) (r : Nat) : Prop :=
  ¬(fs.start + headerOffset ≤ r ∧ r < fs.end_ + headerOffset) ∧
  ¬(tsp.start ≤ r ∧ r < tsp.end_)

theorem Gc.processRoots_shape :
    ∀ rs fuel g g', Gc.processRoots fuel rs g = .ok g' → Gc.sameShape g g' := by
  intro rs
  induction rs with
  | nil => intro fuel g g' h; cases h; exact Gc.sameShape_refl g
  | cons r rs ih =>
      intro fuel g g' h
      rw [Gc.processRoots] at h
      cases hf : Gc.forward fuel g (g.mem r) with
      | error e => rw [hf] at h; exact absurd h (by simp [exBind_error])
      | ok vg =>
          rw [hf] at h
          simp only [exBind_ok] at h
          exact Gc.sameShape_trans
            (Gc.sameShape_trans (Gc.forward_shape hf) (Gc.writeMem_shape ..))
            (ih fuel _ g' h)

theorem Gc.processRoots_main :
    ∀ rs fuel g g' fs, ChaseInv g fs →
      (∀ r ∈ rs, slotOK fs g.toSpace r) →
      (∀ r ∈ rs, fs.contains (g.mem r) = true ∨ g.toSpace.contains (g.mem r) = true) →
      Gc.processRoots fuel rs g = .ok g' →
      (∀ r, slotOK fs g.toSpace r → g.toSpace.contains (g.mem r) = true →
        g.toSpace.contains (g'.mem r) = true) ∧
      (∀ r ∈ rs, g.toSpace.contains (g'.mem r) = true) := by
  intro rs
  induction rs with
  | nil =>
      intro fuel g g' fs inv hsl hv h
      cases h
      exact ⟨fun r _ hc => hc, fun r hr => absurd hr (List.not_mem_nil r)⟩
  | cons r rs ih =>
      intro fuel g g' fs inv hsl hv h
      rw [Gc.processRoots] at h
      cases hf : Gc.forward fuel g (g.mem r) with
      | error e => rw [hf] at h; exact absurd h (by simp [exBind_error])
      | ok vg =>
          rw [hf] at h
          simp only [exBind_ok] at h
          obtain ⟨v, gf⟩ := vg
          obtain ⟨invf, hmono, hwrites⟩ := Gc.forward_main inv hf
          obtain ⟨sfrom, sto, -, -, -, -, -, -, -⟩ := Gc.forward_shape hf
          have htsp : (Gc.writeMem gf r v).toSpace = g.toSpace := sto
          have hvto : g.toSpace.contains v = true := by
            rcases Gc.forward_cases hf with hc | ⟨hveq, -, hnin⟩
            · exact hc
            · rcases hv r (List.mem_cons_self r rs) with hfs' | hto'
              · exfalso
                have : Gc.inFromSpace g (g.mem r) = true := by
                  unfold Gc.inFromSpace
                  rw [inv.hfs]
                  exact hfs'
                rw [hnin] at this
                cases this
              · rw [hveq]; exact hto'
          have hstep : ∀ x, slotOK fs g.toSpace x → x ≠ r →
              (Gc.writeMem gf r v).mem x = g.mem x := by
            intro x hx hxr
            rw [Gc.writeMem_mem, if_neg hxr]
            by_contra hne
            rcases hwrites x hne with ⟨hL1, hL2, hL3⟩ | hRg
            · have h1 := inv.hlow
              have h2 := inv.hlimit
              exact hx.2 ⟨by omega, by omega⟩
            · exact hx.1 hRg
          have hinv2 : ChaseInv (Gc.writeMem gf r v) fs := invf.writeMem r v
          have hsl2 : ∀ x ∈ rs, slotOK fs (Gc.writeMem gf r v).toSpace x := by
            intro x hx
            rw [htsp]
            exact hsl x (List.mem_cons_of_mem r hx)
          have hv2 : ∀ x ∈ rs, fs.contains ((Gc.writeMem gf r v).mem x) = true ∨
              (Gc.writeMem gf r v).toSpace.contains ((Gc.writeMem gf r v).mem x) = true := by
            intro x hx
            rw [htsp]
            by_cases hxr : x = r
            · subst hxr
              rw [Gc.writeMem_mem, if_pos rfl]
              exact Or.inr hvto
            · rw [hstep x (hsl x (List.mem_cons_of_mem r hx)) hxr]
              exact hv x (List.mem_cons_of_mem r hx)
          obtain ⟨pres2, conc2⟩ := ih fuel _ g' fs hinv2 hsl2 hv2 h
          rw [htsp] at pres2 conc2
          have hmid : ∀ x, slotOK fs g.toSpace x → g.toSpace.contains (g.mem x) = true →
              g.toSpace.contains ((Gc.writeMem gf r v).mem x) = true := by
            intro x hx hxto
            by_cases hxr : x = r
            · subst hxr
              rw [Gc.writeMem_mem, if_pos rfl]
              exact hvto
            · rw [hstep x hx hxr]
              exact hxto
          refine ⟨?_, ?_⟩
          · intro x hx hxto
            exact pres2 x hx (hmid x hx hxto)
          · intro x hx
            rcases List.mem_cons.mp hx with hxr | hxs
            · subst hxr
              refine pres2 x (hsl x (List.mem_cons_self x rs)) ?_
              rw [Gc.writeMem_mem, if_pos rfl]
              exact hvto
            · exact conc2 x hxs

/-! ### Scan loop lemmas -/

theorem Gc.forwardFields_shape :
    ∀ k i fuel p g g', Gc.forwardFields fuel p i k g = .ok g' → Gc.sameShape g g' := by
  intro k
  induction k with
  | zero => intro i fuel p g g' h; cases h; exact Gc.sameShape_refl g
  | succ k ih =>
      intro i fuel p g g' h
      rw [Gc.forwardFields] at h
      cases hf : Gc.forward fuel g (Gc.readField g p i) with
      | error e => rw [hf] at h; exact absurd h (by simp [exBind_error])
      | ok vg =>
          rw [hf] at h
          simp only [exBind_ok] at h
          exact Gc.sameShape_trans
            (Gc.sameShape_trans (Gc.forward_shape hf) (Gc.writeMem_shape ..))
            (ih (i + 1) fuel p _ g' h)

/-- Everything the scan loop leaves untouched. -/
def Gc.scanShape (g g' : Gc) : Prop :=
  g'.toSpace = g.toSpace ∧ g'.limit = g.limit ∧ g'.roots = g.roots ∧
  g'.stats = g.stats ∧ g'.fcMask = g.fcMask ∧ g'.fresh = g.fresh

theorem Gc.sameShape_scanShape {g g' : Gc} (h : Gc.sameShape g g') : Gc.scanShape g g' :=
  ⟨h.2.1, h.2.2.2.2.2.1, h.2.2.1, h.2.2.2.2.2.2.1, h.2.2.2.2.2.2.2.1, h.2.2.2.2.2.2.2.2⟩

theorem Gc.scanShape_refl (g : Gc) : Gc.scanShape g g := ⟨rfl, rfl, rfl, rfl, rfl, rfl⟩

theorem Gc.scanShape_trans {x y z : Gc}
    (h12 : Gc.scanShape x y) (h23 : Gc.scanShape y z) : Gc.scanShape x z := by
  obtain ⟨a1, a2, a3, a4, a5, a6⟩ := h12
  obtain ⟨b1, b2, b3, b4, b5, b6⟩ := h23
  exact ⟨b1.trans a1, b2.trans a2, b3.trans a3, b4.trans a4, b5.trans a5, b6.trans a6⟩

theorem Gc.scanLoop_shape :
    ∀ fuel target g g', Gc.scanLoop target fuel g = .ok g' → Gc.scanShape g g' := by
  intro fuel
  induction fuel with
  | zero => intro target g g' h; simp [Gc.scanLoop] at h
  | succ fuel ih =>
      intro target g g' h
      rw [Gc.scanLoop] at h
      split at h
      · split at h
        · cases h; exact Gc.scanShape_refl g
        · cases hf : Gc.forwardFields fuel g.scan 0 (Gc.fieldCount g g.scan) g with
          | error e => rw [hf] at h; exact absurd h (by simp [exBind_error])
          | ok g1 =>
              rw [hf] at h
              simp only [exBind_ok] at h
              refine Gc.scanShape_trans (Gc.scanShape_trans
                (Gc.sameShape_scanShape (Gc.forwardFields_shape _ 0 fuel g.scan g g1 hf))
                ?_) (ih target _ g' h)
              exact ⟨rfl, rfl, rfl, rfl, rfl, rfl⟩
      · cases h; exact ⟨rfl, rfl, rfl, rfl, rfl, rfl⟩

theorem Gc.scanLoop_scan_le :
    ∀ fuel target S g g',
      (∀ w : Nat, headerOffset + ((w &&& g.fcMask) >>> 4) * FIELD_SIZE ≤ S) →
      Gc.scanLoop target fuel g = .ok g' →
      g'.scan ≤ max g.scan (target + S) := by
  intro fuel
  induction fuel with
  | zero => intro target S g g' hS h; simp [Gc.scanLoop] at h
  | succ fuel ih =>
      intro target S g g' hS h
      rw [Gc.scanLoop] at h
      split at h
      next hlt =>
        split at h
        next hgt => cases h; exact le_max_left _ _
        next hgt =>
          cases hf : Gc.forwardFields fuel g.scan 0 (Gc.fieldCount g g.scan) g with
          | error e => rw [hf] at h; exact absurd h (by simp [exBind_error])
          | ok g1 =>
              rw [hf] at h
              simp only [exBind_ok] at h
              obtain ⟨-, -, -, -, hscan, -, -, hfc, -⟩ :=
                Gc.forwardFields_shape _ 0 fuel g.scan g g1 hf
              have hS1 : ∀ w : Nat,
                  headerOffset + ((w &&& g1.fcMask) >>> 4) * FIELD_SIZE ≤ S := by
                intro w; rw [hfc]; exact hS w
              have hbody := ih target S
                { g1 with scan := g1.scan + Gc.objSize g1 g.scan } g'
                (fun w => hS1 w) h
              have hsz : Gc.objSize g1 g.scan ≤ S := by
                have := hS1 (g1.mem g.scan)
                rw [Gc.objSize]
                unfold Gc.fieldCount
                exact this
              have hstep : g1.scan + Gc.objSize g1 g.scan ≤ target + S := by
                rw [hscan]
                omega
              calc g'.scan
                  ≤ max (g1.scan + Gc.objSize g1 g.scan) (target + S) := hbody
                _ ≤ target + S := by omega
                _ ≤ max g.scan (target + S) := le_max_right _ _
      next hlt =>
        cases h
        exact le_max_left _ _

theorem Gc.scanLoop_drain :
    ∀ fuel target g g', Gc.scanLoop target fuel g = .ok g' →
      g.gcInProgress = true → g'.gcInProgress = false →
      g'.fromSpace = none ∧ g'.next ≤ g'.scan := by
  intro fuel
  induction fuel with
  | zero => intro target g g' h; simp [Gc.scanLoop] at h
  | succ fuel ih =>
      intro target g g' h hgc hgc'
      rw [Gc.scanLoop] at h
      split at h
      next hlt =>
        split at h
        · cases h; rw [hgc] at hgc'; cases hgc'
        · cases hf : Gc.forwardFields fuel g.scan 0 (Gc.fieldCount g g.scan) g with
          | error e => rw [hf] at h; exact absurd h (by simp [exBind_error])
          | ok g1 =>
              rw [hf] at h
              simp only [exBind_ok] at h
              obtain ⟨-, -, -, hgip, -, -, -, -, -⟩ :=
                Gc.forwardFields_shape _ 0 fuel g.scan g g1 hf
              exact ih target _ g' h (by rw [← hgc]; exact hgip) hgc'
      next hlt =>
        cases h
        refine ⟨rfl, ?_⟩
        show g.next ≤ g.scan
        omega

theorem Gc.scanLoop_progress :
    ∀ fuel target g g', Gc.scanLoop target fuel g = .ok g' →
      g.gcInProgress = true →
      g'.gcInProgress = false → g'.fromSpace = none := by
  intro fuel target g g' h hgc hgc'
  exact (Gc.scanLoop_drain fuel target g g' h hgc hgc').1

/-! ### Statistics lemmas -/

/-- Pointwise order on the six monotone counters. -/
def Stats.le (a b : Stats) : Prop :=
  a.reads ≤ b.reads ∧ a.writes ≤ b.writes ∧ a.readBarriers ≤ b.readBarriers ∧
  a.gcCycles ≤ b.gcCycles ∧ a.allTimeAllocated ≤ b.allTimeAllocated ∧
  a.allTimeAllocatedObjs ≤ b.allTimeAllocatedObjs

theorem Stats.le_refl (a : Stats) : Stats.le a a :=
  ⟨Nat.le_refl _, Nat.le_refl _, Nat.le_refl _, Nat.le_refl _, Nat.le_refl _, Nat.le_refl _⟩

theorem Stats.le_trans {a b c : Stats} (h1 : Stats.le a b) (h2 : Stats.le b c) :
    Stats.le a c :=
  ⟨h1.1.trans h2.1, h1.2.1.trans h2.2.1, h1.2.2.1.trans h2.2.2.1,
   h1.2.2.2.1.trans h2.2.2.2.1, h1.2.2.2.2.1.trans h2.2.2.2.2.1,
   h1.2.2.2.2.2.trans h2.2.2.2.2.2⟩

theorem Gc.register_alloc_stats_le (g : Gc) (s : Nat) :
    Stats.le g.stats (Gc.register_alloc g s).stats :=
  ⟨Nat.le_refl _, Nat.le_refl _, Nat.le_refl _, Nat.le_refl _,
   Nat.le_add_right _ _, Nat.le_add_right _ _⟩

theorem Gc.register_alloc_reads (g : Gc) (s : Nat) :
    (Gc.register_alloc g s).stats.reads = g.stats.reads ∧
    (Gc.register_alloc g s).stats.readBarriers = g.stats.readBarriers := ⟨rfl, rfl⟩

theorem Gc.register_alloc_used (g : Gc) (s : Nat) :
    Gc.used_memory (Gc.register_alloc g s) = Gc.used_memory g := rfl

theorem Gc.register_alloc_maxUsed (g : Gc) (s : Nat) :
    Gc.used_memory (Gc.register_alloc g s) ≤ (Gc.register_alloc g s).stats.maxUsed := by
  rw [Gc.register_alloc_used]
  show Gc.used_memory g ≤ max g.stats.maxUsed (Gc.used_memory g)
  exact le_max_right _ _

theorem Gc.alloc_at_next_spec {g : Gc} {s r : Nat} {g1 : Gc}
    (h : Gc.alloc_at_next g s = some (r, g1)) :
    r = g.next ∧ g1 = { g with next := g.next + s } := by
  unfold Gc.alloc_at_next at h
  split at h
  · injection h with h'
    injection h' with h1 h2
    exact ⟨h1.symm, h2.symm⟩
  · cases h

theorem Gc.begin_gc_shape {fuel : Nat} {g g' : Gc} (h : Gc.begin_gc fuel g = .ok g') :
    g'.stats = { g.stats with gcCycles := g.stats.gcCycles + 1 } ∧
    g'.gcInProgress = true ∧ g'.roots = g.roots ∧ g'.fcMask = g.fcMask := by
  unfold Gc.begin_gc at h
  dsimp only at h
  split at h
  all_goals
    obtain ⟨-, -, hroots, hgip, -, -, hstats, hfc, -⟩ :=
      Gc.processRoots_shape _ fuel _ g' h
    exact ⟨hstats, hgip, hroots, hfc⟩

theorem Gc.allocInCycle_ok {fuel : Nat} {g : Gc} {s r : Nat} {g' : Gc}
    (h : Gc.allocInCycle fuel g s = .ok (r, g')) :
    ∃ g2, Gc.run_gc fuel { g with limit := g.limit - s } s = .ok g2 ∧
      r = g.limit - s ∧ g' = Gc.register_alloc g2 s := by
  unfold Gc.allocInCycle at h
  split at h
  · exact absurd h (by simp)
  · cases hr : Gc.run_gc fuel { g with limit := g.limit - s } s with
    | error e => rw [hr] at h; exact absurd h (by simp [exBind_error])
    | ok g2 =>
        rw [hr] at h
        simp only [exBind_ok] at h
        injection h with h'
        injection h' with h1 h2
        exact ⟨g2, rfl, h1.symm, h2.symm⟩

theorem Gc.allocInCycle_stats {fuel : Nat} {g : Gc} {s r : Nat} {g' : Gc}
    (h : Gc.allocInCycle fuel g s = .ok (r, g')) :
    Stats.le g.stats g'.stats ∧ g'.stats.reads = g.stats.reads ∧
    g'.stats.readBarriers = g.stats.readBarriers ∧
    Gc.used_memory g' ≤ g'.stats.maxUsed := by
  obtain ⟨g2, hr, -, hg'⟩ := Gc.allocInCycle_ok h
  obtain ⟨-, -, -, hstats, -, -⟩ := Gc.scanLoop_shape fuel _ _ g2 hr
  subst hg'
  have hs2 : g2.stats = g.stats := hstats
  refine ⟨?_, ?_, ?_, Gc.register_alloc_maxUsed g2 s⟩
  · rw [← hs2]; exact Gc.register_alloc_stats_le g2 s
  · rw [(Gc.register_alloc_reads g2 s).1, hs2]
  · rw [(Gc.register_alloc_reads g2 s).2, hs2]

theorem Gc.alloc_stats {fuel : Nat} {g : Gc} {s0 r : Nat} {g' : Gc}
    (h : Gc.alloc fuel g s0 = .ok (r, g')) :
    Stats.le g.stats g'.stats ∧ g'.stats.reads = g.stats.reads ∧
    g'.stats.readBarriers = g.stats.readBarriers ∧
    Gc.used_memory g' ≤ g'.stats.maxUsed := by
  unfold Gc.alloc at h
  split at h
  · obtain ⟨hle, h1, h2, h3⟩ := Gc.allocInCycle_stats h
    exact ⟨hle, h1, h2, h3⟩
  · dsimp only at h
    split at h
    next rg heq =>
      obtain ⟨r1, g1⟩ := rg
      obtain ⟨-, hg1⟩ := Gc.alloc_at_next_spec heq
      injection h with h'
      injection h' with h1 h2
      subst h2
      have hs1 : g1.stats = g.stats := by rw [hg1]
      refine ⟨?_, ?_, ?_, Gc.register_alloc_maxUsed g1 _⟩
      · rw [← hs1]; exact Gc.register_alloc_stats_le g1 _
      · rw [(Gc.register_alloc_reads g1 _).1, hs1]
      · rw [(Gc.register_alloc_reads g1 _).2, hs1]
    next heq =>
      cases hb : Gc.begin_gc fuel g with
      | error e => rw [hb] at h; exact absurd h (by simp [exBind_error])
      | ok gb =>
          rw [hb] at h
          simp only [exBind_ok] at h
          obtain ⟨hbs, -, -, -⟩ := Gc.begin_gc_shape hb
          obtain ⟨hle, h1, h2, h3⟩ := Gc.allocInCycle_stats h
          rw [hbs] at hle h1 h2
          refine ⟨?_, ?_, ?_, h3⟩
          · refine Stats.le_trans ?_ hle
            exact ⟨Nat.le_refl _, Nat.le_refl _, Nat.le_refl _, Nat.le_succ _,
                   Nat.le_refl _, Nat.le_refl _⟩
          · exact h1
          · exact h2

theorem exMap_ok {α β : Type} (a : α) (f : α → β) :
    (Except.ok a : Except String α).map f = .ok (f a) := rfl

theorem exMap_error {α β : Type} (e : String) (f : α → β) :
    (Except.error e : Except String α).map f = .error e := rfl

theorem Gc.read_barrier_stats {fuel : Nat} {g : Gc} {p idx v : Nat} {g' : Gc}
    (h : Gc.read_barrier fuel g p idx = .ok (v, g')) :
    g'.stats.reads = g.stats.reads + 1 ∧
    g'.stats.readBarriers =
      (if g.gcInProgress && g.inFromSpace (Gc.readField g p idx) then
        g.stats.readBarriers + 1 else g.stats.readBarriers) ∧
    g'.stats.writes = g.stats.writes ∧
    g'.stats.gcCycles = g.stats.gcCycles ∧
    g'.stats.allTimeAllocated = g.stats.allTimeAllocated ∧
    g'.stats.allTimeAllocatedObjs = g.stats.allTimeAllocatedObjs := by
  unfold Gc.read_barrier at h
  split at h
  next hc =>
    have hc' : (g.gcInProgress && g.inFromSpace (Gc.readField g p idx)) = true := hc
    cases hf : Gc.forward fuel (Gc.bumpReads g)
        (Gc.readField (Gc.bumpReads g) p idx) with
    | error e => rw [hf] at h; exact absurd h (by simp [exBind_error])
    | ok vg =>
        rw [hf] at h
        simp only [exBind_ok] at h
        injection h with h2
        injection h2 with h3 h4
        subst h4
        obtain ⟨-, -, -, -, -, -, hstats, -, -⟩ := Gc.forward_shape hf
        have hs : vg.2.stats = (Gc.bumpReads g).stats := hstats
        rw [if_pos hc']
        refine ⟨?_, ?_, ?_, ?_, ?_, ?_⟩
        · show vg.2.stats.reads = g.stats.reads + 1
          rw [hs]
          rfl
        · show vg.2.stats.readBarriers + 1 = g.stats.readBarriers + 1
          rw [hs]
          rfl
        · show vg.2.stats.writes = g.stats.writes
          rw [hs]
          rfl
        · show vg.2.stats.gcCycles = g.stats.gcCycles
          rw [hs]
          rfl
        · show vg.2.stats.allTimeAllocated = g.stats.allTimeAllocated
          rw [hs]
          rfl
        · show vg.2.stats.allTimeAllocatedObjs = g.stats.allTimeAllocatedObjs
          rw [hs]
          rfl
  next hc =>
    have hc' : ¬ (g.gcInProgress && g.inFromSpace (Gc.readField g p idx)) = true := hc
    injection h with h2
    injection h2 with h3 h4
    subst h4
    rw [if_neg hc']
    exact ⟨rfl, rfl, rfl, rfl, rfl, rfl⟩

theorem Gc.record_write_frame (g : Gc) (p : Nat) :
    (Gc.record_write g p).fromSpace = g.fromSpace ∧
    (Gc.record_write g p).gcInProgress = g.gcInProgress := by
  unfold Gc.record_write
  split <;> exact ⟨rfl, rfl⟩

theorem Gc.record_write_stats (g : Gc) (p : Nat) :
    (Gc.record_write g p).stats.reads = g.stats.reads ∧
    (Gc.record_write g p).stats.readBarriers = g.stats.readBarriers ∧
    Stats.le g.stats (Gc.record_write g p).stats := by
  unfold Gc.record_write
  split
  · exact ⟨rfl, rfl, Nat.le_refl _, Nat.le_succ _, Nat.le_refl _, Nat.le_refl _,
      Nat.le_refl _, Nat.le_refl _⟩
  · exact ⟨rfl, rfl, Nat.le_refl _, Nat.le_succ _, Nat.le_refl _, Nat.le_refl _,
      Nat.le_refl _, Nat.le_refl _⟩
  · exact ⟨rfl, rfl, Stats.le_refl _⟩

theorem Gc.applyOp_stats {fuel : Nat} {g : Gc} {op : GcOp} {g' : Gc}
    (h : Gc.applyOp fuel g op = .ok g') : Stats.le g.stats g'.stats := by
  cases op with
  | alloc s =>
      dsimp only [Gc.applyOp] at h
      cases ha : Gc.alloc fuel g s with
      | error e => rw [ha] at h; exact absurd h (by simp [exMap_error])
      | ok rg =>
          obtain ⟨r1, g1⟩ := rg
          rw [ha] at h
          simp only [exMap_ok] at h
          injection h with h1
          subst h1
          exact (Gc.alloc_stats ha).1
  | readBarrier p i =>
      dsimp only [Gc.applyOp] at h
      cases ha : Gc.read_barrier fuel g p i with
      | error e => rw [ha] at h; exact absurd h (by simp [exMap_error])
      | ok rg =>
          obtain ⟨r1, g1⟩ := rg
          rw [ha] at h
          simp only [exMap_ok] at h
          injection h with h1
          subst h1
          obtain ⟨h1, h2, h3, h4, h5, h6⟩ := Gc.read_barrier_stats ha
          refine ⟨by omega, by omega, ?_, by omega, by omega, by omega⟩
          split at h2 <;> omega
  | writeBarrier p =>
      dsimp only [Gc.applyOp] at h
      injection h with h1
      subst h1
      exact (Gc.record_write_stats g p).2.2
  | pushRoot r =>
      dsimp only [Gc.applyOp] at h
      injection h with h1
      subst h1
      exact Stats.le_refl _
  | popRoot r =>
      dsimp only [Gc.applyOp] at h
      split at h
      · cases h
      · injection h with h1
        subst h1
        exact Stats.le_refl _
  | hostStore a v =>
      dsimp only [Gc.applyOp] at h
      injection h with h1
      subst h1
      exact Stats.le_refl _

theorem Gc.runOps_stats :
    ∀ ops fuel g g', Gc.runOps fuel g ops = .ok g' → Stats.le g.stats g'.stats := by
  intro ops
  induction ops with
  | nil => intro fuel g g' h; cases h; exact Stats.le_refl _
  | cons op ops ih =>
      intro fuel g g' h
      rw [Gc.runOps] at h
      cases ha : Gc.applyOp fuel g op with
      | error e => rw [ha] at h; exact absurd h (by simp [exBind_error])
      | ok g1 =>
          rw [ha] at h
          simp only [exBind_ok] at h
          exact Stats.le_trans (Gc.applyOp_stats ha) (ih fuel g1 g' h)

theorem Gc.applyOp_reads_frame {fuel : Nat} {g : Gc} {op : GcOp} {g' : Gc}
    (h : Gc.applyOp fuel g op = .ok g')
    (hop : ∀ p i, op ≠ GcOp.readBarrier p i) :
    g'.stats.reads = g.stats.reads ∧ g'.stats.readBarriers = g.stats.readBarriers := by
  cases op with
  | alloc s =>
      dsimp only [Gc.applyOp] at h
      cases ha : Gc.alloc fuel g s with
      | error e => rw [ha] at h; exact absurd h (by simp [exMap_error])
      | ok rg =>
          obtain ⟨r1, g1⟩ := rg
          rw [ha] at h
          simp only [exMap_ok] at h
          injection h with h1
          subst h1
          exact ⟨(Gc.alloc_stats ha).2.1, (Gc.alloc_stats ha).2.2.1⟩
  | readBarrier p i => exact absurd rfl (hop p i)
  | writeBarrier p =>
      dsimp only [Gc.applyOp] at h
      injection h with h1
      subst h1
      exact ⟨(Gc.record_write_stats g p).1, (Gc.record_write_stats g p).2.1⟩
  | pushRoot r =>
      dsimp only [Gc.applyOp] at h
      injection h with h1
      subst h1
      exact ⟨rfl, rfl⟩
  | popRoot r =>
      dsimp only [Gc.applyOp] at h
      split at h
      · cases h
      · injection h with h1
        subst h1
        exact ⟨rfl, rfl⟩
  | hostStore a v =>
      dsimp only [Gc.applyOp] at h
      injection h with h1
      subst h1
      exact ⟨rfl, rfl⟩

theorem Gc.applyOp_rb_le {fuel : Nat} {g : Gc} {op : GcOp} {g' : Gc}
    (h : Gc.applyOp fuel g op = .ok g')
    (hinv : g.stats.readBarriers ≤ g.stats.reads) :
    g'.stats.readBarriers ≤ g'.stats.reads := by
  cases op with
  | readBarrier p i =>
      dsimp only [Gc.applyOp] at h
      cases ha : Gc.read_barrier fuel g p i with
      | error e => rw [ha] at h; exact absurd h (by simp [exMap_error])
      | ok rg =>
          obtain ⟨r1, g1⟩ := rg
          rw [ha] at h
          simp only [exMap_ok] at h
          injection h with h1
          subst h1
          obtain ⟨h1, h2, -, -, -, -⟩ := Gc.read_barrier_stats ha
          split at h2 <;> omega
  | alloc s =>
      obtain ⟨h1, h2⟩ := Gc.applyOp_reads_frame h (fun p i => by simp)
      omega
  | writeBarrier p =>
      obtain ⟨h1, h2⟩ := Gc.applyOp_reads_frame h (fun p i => by simp)
      omega
  | pushRoot r =>
      obtain ⟨h1, h2⟩ := Gc.applyOp_reads_frame h (fun p i => by simp)
      omega
  | popRoot r =>
      obtain ⟨h1, h2⟩ := Gc.applyOp_reads_frame h (fun p i => by simp)
      omega
  | hostStore a v =>
      obtain ⟨h1, h2⟩ := Gc.applyOp_reads_frame h (fun p i => by simp)
      omega

theorem Gc.runOps_rb_le :
    ∀ ops fuel g g', Gc.runOps fuel g ops = .ok g' →
      g.stats.readBarriers ≤ g.stats.reads →
      g'.stats.readBarriers ≤ g'.stats.reads := by
  intro ops
  induction ops with
  | nil => intro fuel g g' h hinv; cases h; exact hinv
  | cons op ops ih =>
      intro fuel g g' h hinv
      rw [Gc.runOps] at h
      cases ha : Gc.applyOp fuel g op with
      | error e => rw [ha] at h; exact absurd h (by simp [exBind_error])
      | ok g1 =>
          rw [ha] at h
          simp only [exBind_ok] at h
          exact ih fuel g1 g' h (Gc.applyOp_rb_le ha hinv)

/-! ### The idle-state invariant: no from-space outside a cycle -/

/-- When no cycle is in progress, the from-space slot is empty. -/
def Gc.gipP (g : Gc) : Prop := g.gcInProgress = false → g.fromSpace = none

theorem Gc.run_gc_P {fuel n : Nat} {g g' : Gc} (h : Gc.run_gc fuel g n = .ok g')
    (hgc : g.gcInProgress = true) : Gc.gipP g' := by
  intro hf
  exact (Gc.scanLoop_drain fuel _ g g' h hgc hf).1

theorem Gc.allocInCycle_P {fuel s r : Nat} {g g' : Gc}
    (h : Gc.allocInCycle fuel g s = .ok (r, g'))
    (hgc : g.gcInProgress = true) : Gc.gipP g' := by
  obtain ⟨g2, hr, -, hg'⟩ := Gc.allocInCycle_ok h
  subst hg'
  intro hf
  have hP2 : Gc.gipP g2 := Gc.run_gc_P hr hgc
  show g2.fromSpace = none
  exact hP2 hf

theorem Gc.alloc_P {fuel s0 r : Nat} {g g' : Gc}
    (h : Gc.alloc fuel g s0 = .ok (r, g')) (hP : Gc.gipP g) : Gc.gipP g' := by
  unfold Gc.alloc at h
  split at h
  next hgc => exact Gc.allocInCycle_P h hgc
  next hgc =>
    dsimp only at h
    split at h
    next rg heq =>
        obtain ⟨r1, g1⟩ := rg
        obtain ⟨-, hg1⟩ := Gc.alloc_at_next_spec heq
        injection h with h2
        injection h2 with h3 h4
        subst h4
        intro hf
        show g1.fromSpace = none
        rw [hg1]
        show g.fromSpace = none
        exact hP (by simpa using hgc)
    next heq =>
        cases hb : Gc.begin_gc fuel g with
        | error e => rw [hb] at h; exact absurd h (by simp [exBind_error])
        | ok gb =>
            rw [hb] at h
            simp only [exBind_ok] at h
            exact Gc.allocInCycle_P h (Gc.begin_gc_shape hb).2.1

theorem Gc.read_barrier_P {fuel p i v : Nat} {g g' : Gc}
    (h : Gc.read_barrier fuel g p i = .ok (v, g')) (hP : Gc.gipP g) : Gc.gipP g' := by
  unfold Gc.read_barrier at h
  split at h
  next hc =>
    cases hf : Gc.forward fuel (Gc.bumpReads g) (Gc.readField (Gc.bumpReads g) p i) with
    | error e => rw [hf] at h; exact absurd h (by simp [exBind_error])
    | ok vg =>
        rw [hf] at h
        simp only [exBind_ok] at h
        injection h with h2
        injection h2 with h3 h4
        subst h4
        obtain ⟨hfrom, -, -, hgip, -, -, -, -, -⟩ := Gc.forward_shape hf
        intro hfalse
        show vg.2.fromSpace = none
        rw [hfrom]
        show g.fromSpace = none
        apply hP
        have hfalse2 : vg.2.gcInProgress = false := hfalse
        rw [hgip] at hfalse2
        exact hfalse2
  next hc =>
    injection h with h2
    injection h2 with h3 h4
    subst h4
    intro hfalse
    exact hP hfalse

theorem Gc.applyOp_P {fuel : Nat} {g : Gc} {op : GcOp} {g' : Gc}
    (h : Gc.applyOp fuel g op = .ok g') (hP : Gc.gipP g) : Gc.gipP g' := by
  cases op with
  | alloc s =>
      dsimp only [Gc.applyOp] at h
      cases ha : Gc.alloc fuel g s with
      | error e => rw [ha] at h; exact absurd h (by simp [exMap_error])
      | ok rg =>
          obtain ⟨r1, g1⟩ := rg
          rw [ha] at h
          simp only [exMap_ok] at h
          injection h with h1
          subst h1
          exact Gc.alloc_P ha hP
  | readBarrier p i =>
      dsimp only [Gc.applyOp] at h
      cases ha : Gc.read_barrier fuel g p i with
      | error e => rw [ha] at h; exact absurd h (by simp [exMap_error])
      | ok rg =>
          obtain ⟨r1, g1⟩ := rg
          rw [ha] at h
          simp only [exMap_ok] at h
          injection h with h1
          subst h1
          exact Gc.read_barrier_P ha hP
  | writeBarrier p =>
      dsimp only [Gc.applyOp] at h
      injection h with h1
      subst h1
      intro hfalse
      rw [(Gc.record_write_frame g p).1]
      apply hP
      rw [← (Gc.record_write_frame g p).2]
      exact hfalse
  | pushRoot r =>
      dsimp only [Gc.applyOp] at h
      injection h with h1
      subst h1
      intro hfalse
      exact hP hfalse
  | popRoot r =>
      dsimp only [Gc.applyOp] at h
      split at h
      · cases h
      · injection h with h1
        subst h1
        intro hfalse
        exact hP hfalse
  | hostStore a v =>
      dsimp only [Gc.applyOp] at h
      injection h with h1
      subst h1
      intro hfalse
      exact hP hfalse

theorem Gc.runOps_P :
    ∀ ops fuel g g', Gc.runOps fuel g ops = .ok g' → Gc.gipP g → Gc.gipP g' := by
  intro ops
  induction ops with
  | nil => intro fuel g g' h hP; cases h; exact hP
  | cons op ops ih =>
      intro fuel g g' h hP
      rw [Gc.runOps] at h
      cases ha : Gc.applyOp fuel g op with
      | error e => rw [ha] at h; exact absurd h (by simp [exBind_error])
      | ok g1 =>
          rw [ha] at h
          simp only [exBind_ok] at h
          exact ih fuel g1 g' h (Gc.applyOp_P ha hP)

/-! ### Claim theorems, witnesses and counterexamples -/

theorem maskBound (w m : Nat) :
    headerOffset + ((w &&& m) >>> 4) * FIELD_SIZE ≤
      headerOffset + (m >>> 4) * FIELD_SIZE := by
  have h2 : (w &&& m) >>> 4 ≤ m >>> 4 := by
    simp only [Nat.shiftRight_eq_div_pow]
    exact Nat.div_le_div_right Nat.and_le_right
  have := Nat.mul_le_mul_right FIELD_SIZE h2
  omega

/-- A freshly constructed collector over a 64-byte heap at ghost address 1024
with `FIELD_COUNT_MASK = 0xF0`. -/
def c1g : Gc := Gc.new 64 240 1024

/-- A small mid-cycle collector state: from-space `[64, 80)` holding one
one-field object at 64 (header `0x10`), empty to-space `[1024, 1088)`. -/
def c4g : Gc :=
  { fromSpace := some ⟨64, 16⟩, toSpace := ⟨1024, 64⟩, roots := [],
    gcInProgress := true, scan := 1024, next := 1024, limit := 1088,
    stats := {}, mem := fun a => if a = 64 then 16 else 0, fcMask := 240,
    fresh := 2000 }

/-- A mid-cycle collector state whose scan has already caught up with `next`,
so that the next `run_gc` drains the cycle. -/
def c2g : Gc :=
  { fromSpace := some ⟨64, 16⟩, toSpace := ⟨1024, 64⟩, roots := [],
    gcInProgress := true, scan := 1024, next := 1024, limit := 1088,
    stats := {}, mem := fun _ => 0, fcMask := 240, fresh := 2000 }

/-- C1: an in-cycle `run_gc(n)` advances `scan` by at most `n + S` bytes,
where `S` bounds the size of any single scanned object (every object size
decodable under the header mask is at most `S`; the largest object scanned in
the call is such a size).  The loop fixes `target = scan + n` up front and
returns as soon as `scan > target`, so the overshoot past `n` is at most the
one object scanned last. -/
theorem claim_C1_run_gc_bounded_advance (fuel n S : Nat) (g g' : Gc)
    (hS : ∀ w : Nat, headerOffset + ((w &&& g.fcMask) >>> 4) * FIELD_SIZE ≤ S)
    (h : Gc.run_gc fuel g n = .ok g') :
    g'.scan ≤ g.scan + n + S := by
  unfold Gc.run_gc at h
  have hle := Gc.scanLoop_scan_le fuel (wadd g.scan n) S g g' hS h
  have htarget : wadd g.scan n ≤ g.scan + n := Nat.mod_le _ _
  have hmax : max g.scan (wadd g.scan n + S) ≤ g.scan + n + S :=
    max_le (by omega) (by omega)
  omega

theorem claim_C1_witness :
    exP (Gc.run_gc 10 c1g 8) (fun g' => g'.scan ≤ c1g.scan + 8 + 128) := by
  have hok : exIsOk (Gc.run_gc 10 c1g 8) = true := by decide
  unfold exP
  split
  next g' heq =>
    exact claim_C1_run_gc_bounded_advance 10 8 128 c1g g'
      (fun w => le_trans (maskBound w 240) (by decide)) heq
  next e heq =>
    rw [heq] at hok
    exact absurd hok (by simp [exIsOk])

/-- C4: `forward` is idempotent.  If the two semi-spaces do not overlap (they
are separate allocations) and `forward` returns `v` in state `g'`, then
forwarding `v` again returns `v` and leaves the state unchanged: a returned
pointer is either in to-space (already-forwarded or freshly chased) or
outside from-space, and in both cases the second call takes the identity
branch. -/
theorem claim_C4_forward_idempotent (fuel fuel2 : Nat) (g : Gc) (p v : Nat) (g' : Gc)
    (hdisj : ∀ fs, g.fromSpace = some fs → Space.disjoint fs g.toSpace)
    (h : Gc.forward fuel g p = .ok (v, g')) :
    Gc.forward fuel2 g' v = .ok (v, g') := by
  rcases Gc.forward_cases h with hto | ⟨hvp, hgg, hnin⟩
  · obtain ⟨hfrom, htsp, -, -, -, -, -, -, -⟩ := Gc.forward_shape h
    have hnin' : Gc.inFromSpace g' v = false := by
      unfold Gc.inFromSpace
      rw [hfrom]
      cases hfs : g.fromSpace with
      | none => rfl
      | some fs =>
          exact Space.disjoint_not_contains (Space.disjoint_symm (hdisj fs hfs)) hto
    unfold Gc.forward
    rw [hnin']
    simp
  · subst hvp
    subst hgg
    exact Gc.forward_not_from (Or.inr hnin)

theorem claim_C4_witness :
    exP (Gc.forward 5 c4g 64)
      (fun vg => Gc.forward 5 vg.2 vg.1 = .ok (vg.1, vg.2)) := by
  have hok : exIsOk (Gc.forward 5 c4g 64) = true := by decide
  unfold exP
  split
  next vg heq =>
    obtain ⟨v, g'⟩ := vg
    refine claim_C4_forward_idempotent 5 5 c4g 64 v g' ?_ heq
    intro fs hfs
    have hfs' : some (⟨64, 16⟩ : Space) = some fs := hfs
    injection hfs' with h2
    rw [← h2]
    exact Or.inl (by decide)
  next e heq =>
    rw [heq] at hok
    exact absurd hok (by simp [exIsOk])

/-- C5: `forward` returns its argument unchanged, with no state mutation,
whenever the argument is null or does not point into from-space (the sole
mechanism protecting raw fields such as `fn[0]`, which never points into
from-space); and `chase` copies every field of the chased object — in
particular the raw field 0 of an `fn` object — verbatim into the to-space
copy at the old `next`, so the copy's bytes equal the original's before the
call. -/
theorem claim_C5_raw_fields_preserved :
    (∀ fuel (g : Gc) (p : Nat), p = 0 ∨ Gc.inFromSpace g p = false →
      Gc.forward fuel g p = .ok (p, g)) ∧
    (∀ fuel (g : Gc) (p : Nat) (g' : Gc) (fs : Space), ChaseInv g fs →
      fs.contains p = true → p + Gc.objSize g p ≤ fs.end_ →
      Gc.chase fuel g p = .ok g' →
      ∀ i, i < Gc.fieldCount g p →
        g'.mem (fieldAddr g.next i) = g.mem (fieldAddr p i)) :=
  ⟨fun _ _ _ h => Gc.forward_not_from h,
   fun fuel g p g' fs inv hp hfit h => Gc.chase_copy fuel g p g' fs inv hp hfit h⟩

theorem claim_C5_witness :
    Gc.forward 5 c4g 0 = .ok (0, c4g) ∧
    exP (Gc.chase 5 c4g 64)
      (fun g' => ∀ i, i < Gc.fieldCount c4g 64 →
        g'.mem (fieldAddr c4g.next i) = c4g.mem (fieldAddr 64 i)) := by
  have hok : exIsOk (Gc.chase 5 c4g 64) = true := by decide
  constructor
  · exact claim_C5_raw_fields_preserved.1 5 c4g 0 (Or.inl rfl)
  · unfold exP
    split
    next g' heq =>
      refine claim_C5_raw_fields_preserved.2 5 c4g 64 g' ⟨64, 16⟩
        ⟨rfl, Or.inl (by decide), by decide, by decide, by decide, by decide⟩
        (by decide) (by decide) heq
    next e heq =>
      rw [heq] at hok
      exact absurd hok (by simp [exIsOk])

/-- C2 (amended): whenever `gc_in_progress` is false at an operation
boundary, `from_space` is absent.  Immediately after construction `next`
is the bump pointer `to_space.start` and `limit = to_space.end`, but `scan`
is the null pointer (`Default::default()`), not `to_space.start`; and
immediately after a cycle drains inside `run_gc`, `next ≤ scan` and neither
`limit = to_space.end` nor `scan = to_space.start` need hold, because
in-cycle allocations lowered `limit` and scanning advanced `scan`. -/
theorem claim_C2_idle_state_shape :
    (∀ m mask b, (Gc.new m mask b).fromSpace = none ∧
      (Gc.new m mask b).gcInProgress = false ∧ (Gc.new m mask b).scan = 0 ∧
      (Gc.new m mask b).next = (Gc.new m mask b).toSpace.start ∧
      (Gc.new m mask b).limit = (Gc.new m mask b).toSpace.end_) ∧
    (∀ fuel n (g g' : Gc), Gc.run_gc fuel g n = .ok g' → g.gcInProgress = true →
      g'.gcInProgress = false → g'.fromSpace = none ∧ g'.next ≤ g'.scan) ∧
    (∀ fuel ops m mask b (g' : Gc), Gc.runOps fuel (Gc.new m mask b) ops = .ok g' →
      g'.gcInProgress = false → g'.fromSpace = none) := by
  refine ⟨fun m mask b => ⟨rfl, rfl, rfl, rfl, rfl⟩, ?_, ?_⟩
  · intro fuel n g g' h hgc hgc'
    unfold Gc.run_gc at h
    exact Gc.scanLoop_drain fuel _ g g' h hgc hgc'
  · intro fuel ops m mask b g' h
    exact Gc.runOps_P ops fuel _ g' h (fun _ => rfl)

/-- Operations that allocate one rooted 8-byte object, fill the 64-byte heap
with unrooted 8-byte objects, and then trigger a collection whose funded scan
immediately drains the cycle. -/
def c2drainOps : List GcOp :=
  [ .alloc 8, .hostStore 200 1024, .pushRoot 200,
    .alloc 8, .alloc 8, .alloc 8, .alloc 8, .alloc 8, .alloc 8,
    .alloc 8 ]

def c2drainCheck : Bool :=
  match Gc.runOps 100 (Gc.new 64 240 1024) c2drainOps with
  | .ok g' => !g'.gcInProgress && decide (g'.limit ≠ g'.toSpace.end_) &&
      decide (g'.scan ≠ g'.toSpace.start) && decide (g'.next ≤ g'.scan)
  | .error _ => false

/-- C2 counterexample: the claim as stated is false at two reachable idle
states.  After `Gc::new` (idle), `scan` is the null pointer while
`to_space.start` is not null; and after the cycle triggered by `c2drainOps`
drains inside `run_gc` (idle again), `limit` sits strictly below
`to_space.end` (an in-cycle allocation lowered it) and `scan` is not
`to_space.start`. -/
theorem claim_C2_counterexample :
    (Gc.new 128 240 1024).gcInProgress = false ∧
    (Gc.new 128 240 1024).scan ≠ (Gc.new 128 240 1024).toSpace.start ∧
    c2drainCheck = true := by
  refine ⟨rfl, by decide, by decide⟩

theorem claim_C2_witness :
    ((Gc.new 64 240 1024).fromSpace = none ∧
      (Gc.new 64 240 1024).gcInProgress = false ∧ (Gc.new 64 240 1024).scan = 0 ∧
      (Gc.new 64 240 1024).next = (Gc.new 64 240 1024).toSpace.start ∧
      (Gc.new 64 240 1024).limit = (Gc.new 64 240 1024).toSpace.end_) ∧
    exP (Gc.run_gc 10 c2g 8) (fun g' => g'.fromSpace = none ∧ g'.next ≤ g'.scan) ∧
    exP (Gc.runOps 100 (Gc.new 64 240 1024) c2drainOps)
      (fun g' => g'.fromSpace = none) := by
  refine ⟨claim_C2_idle_state_shape.1 64 240 1024, ?_, ?_⟩
  · have hb : (match Gc.run_gc 10 c2g 8 with
        | .ok g => !g.gcInProgress
        | .error _ => false) = true := by decide
    unfold exP
    split
    next g' heq =>
      simp only [heq, Bool.not_eq_true'] at hb
      exact claim_C2_idle_state_shape.2.1 10 8 c2g g' heq rfl hb
    next e heq =>
      simp only [heq] at hb
      exact absurd hb (by simp)
  · have hb : (match Gc.runOps 100 (Gc.new 64 240 1024) c2drainOps with
        | .ok g => !g.gcInProgress
        | .error _ => false) = true := by decide
    unfold exP
    split
    next g' heq =>
      simp only [heq, Bool.not_eq_true'] at hb
      exact claim_C2_idle_state_shape.2.2 100 c2drainOps 64 240 1024 g' heq hb
    next e heq =>
      simp only [heq] at hb
      exact absurd hb (by simp)

/-- C3: after `begin_gc` completes, every registered root slot contains a
pointer into the (new) to-space.  Hypotheses are the call-boundary contract
of `begin_gc`: the collector is idle (`from_space = None`), the heap is
non-trivial, the fresh to-space the ghost allocator returns does not overlap
the old one, addresses stay below `2 ^ 64`, root slots live in host memory
outside both semi-spaces, and — invariant (2)/(3) of the spec — every root
currently points into the (old) to-space, which the cycle swap turns into
from-space.  Each root is loaded, passed through `forward` and written back,
and the result lands in the new to-space. -/
theorem claim_C3_roots_into_to_space (fuel : Nat) (g g' : Gc)
    (hidle : g.fromSpace = none) (hpos : 0 < g.toSpace.size)
    (hdisj : g.toSpace.end_ + headerOffset ≤ (Space.allocAt g.fresh g.toSpace.size).start ∨
      (Space.allocAt g.fresh g.toSpace.size).end_ ≤ g.toSpace.start)
    (hW : (Space.allocAt g.fresh g.toSpace.size).end_ + Gc.maxObj g < W)
    (hsl : ∀ r ∈ g.roots, slotOK g.toSpace (Space.allocAt g.fresh g.toSpace.size) r)
    (hv : ∀ r ∈ g.roots, g.toSpace.contains (g.mem r) = true)
    (h : Gc.begin_gc fuel g = .ok g') :
    ∀ r ∈ g.roots, g'.toSpace.contains (g'.mem r) = true := by
  unfold Gc.begin_gc at h
  dsimp only at h
  rw [hidle] at h
  simp only [Option.getD_none] at h
  split at h
  next hcond =>
    have h2 : Gc.processRoots fuel g.roots
        { fromSpace := some g.toSpace,
          toSpace := Space.allocAt g.fresh g.toSpace.size,
          roots := g.roots, gcInProgress := true,
          scan := (Space.allocAt g.fresh g.toSpace.size).start,
          next := (Space.allocAt g.fresh g.toSpace.size).start,
          limit := (Space.allocAt g.fresh g.toSpace.size).end_,
          stats := { g.stats with gcCycles := g.stats.gcCycles + 1 },
          mem := g.mem, fcMask := g.fcMask,
          fresh := g.fresh + (Space.allocAt g.fresh g.toSpace.size).size + ALIGNMENT } =
        .ok g' := h
    obtain ⟨-, hconc⟩ := Gc.processRoots_main g.roots fuel
      { fromSpace := some g.toSpace,
        toSpace := Space.allocAt g.fresh g.toSpace.size,
        roots := g.roots, gcInProgress := true,
        scan := (Space.allocAt g.fresh g.toSpace.size).start,
        next := (Space.allocAt g.fresh g.toSpace.size).start,
        limit := (Space.allocAt g.fresh g.toSpace.size).end_,
        stats := { g.stats with gcCycles := g.stats.gcCycles + 1 },
        mem := g.mem, fcMask := g.fcMask,
        fresh := g.fresh + (Space.allocAt g.fresh g.toSpace.size).size + ALIGNMENT }
      g' g.toSpace
      ⟨rfl, hdisj, le_refl _, Nat.le_add_right _ _, le_refl _, hW⟩
      (fun r hr => hsl r hr) (fun r hr => Or.inl (hv r hr)) h2
    obtain ⟨-, htsp, -, -, -, -, -, -, -⟩ := Gc.processRoots_shape g.roots fuel _ g' h2
    intro r hr
    rw [htsp]
    exact hconc r hr
  next hcond =>
    exfalso
    simp only [ne_eq, Decidable.not_not] at hcond
    omega

def c3g : Gc :=
  { fromSpace := none, toSpace := ⟨1024, 64⟩, roots := [64], gcInProgress := false,
    scan := 0, next := 1032, limit := 1088,
    stats := { allTimeAllocated := 8, allTimeAllocatedObjs := 1, maxUsed := 8 },
    mem := fun a => if a = 64 then 1024 else 0, fcMask := 240, fresh := 1096 }

theorem claim_C3_witness :
    exP (Gc.begin_gc 50 c3g) (fun g' => ∀ r ∈ c3g.roots, g'.toSpace.contains (g'.mem r) = true) := by
  have hok : exIsOk (Gc.begin_gc 50 c3g) = true := by decide
  unfold exP
  split
  next g' heq =>
    exact claim_C3_roots_into_to_space 50 c3g g' rfl (by decide) (by decide) (by decide)
      (fun r hr => by
        have hr2 : r ∈ [64] := hr
        rw [List.mem_singleton] at hr2
        subst hr2
        unfold slotOK
        decide)
      (fun r hr => by
        have hr2 : r ∈ [64] := hr
        rw [List.mem_singleton] at hr2
        subst hr2
        decide)
      heq
  next e heq =>
    rw [heq] at hok
    exact absurd hok (by simp [exIsOk])

/-- C6 (corrected): for an in-cycle allocation of rounded size `s`, `alloc`
panics with "out of memory" *if* `limit` or `next` is null or the wrapped
reservation `limit - s` falls below `next`; when the reservation succeeds the
call returns `limit - s`, lowers `limit` to it, and runs the scanner funded
with `s` bytes — but that scan itself copies survivors and can exhaust the
heap, so the reservation check passing does not preclude an
"out of memory" panic (the spec's "iff" direction fails). -/
theorem claim_C6_in_cycle_alloc (fuel : Nat) (g : Gc) (size0 : Nat)
    (hcyc : g.gcInProgress = true) :
    ((g.limit = 0 ∨ g.next = 0 ∨ wsub g.limit (align_up size0 ALIGNMENT) < g.next) →
      Gc.alloc fuel g size0 = .error "out of memory") ∧
    (¬(g.limit = 0 ∨ g.next = 0 ∨ wsub g.limit (align_up size0 ALIGNMENT) < g.next) →
      Gc.alloc fuel g size0 =
        match Gc.run_gc fuel
            { g with limit := g.limit - align_up size0 ALIGNMENT }
            (align_up size0 ALIGNMENT) with
        | .ok g2 => .ok (g.limit - align_up size0 ALIGNMENT,
            Gc.register_alloc g2 (align_up size0 ALIGNMENT))
        | .error e => .error e) := by
  have key : Gc.alloc fuel g size0 = Gc.allocInCycle fuel g (align_up size0 ALIGNMENT) := by
    unfold Gc.alloc
    rw [hcyc]
    rfl
  constructor
  · intro hcond
    rw [key]
    unfold Gc.allocInCycle
    rw [if_pos hcond]
  · intro hcond
    rw [key]
    unfold Gc.allocInCycle
    rw [if_neg hcond]
    cases hr : Gc.run_gc fuel { g with limit := g.limit - align_up size0 ALIGNMENT }
        (align_up size0 ALIGNMENT) with
    | ok g2 => rfl
    | error e => rfl

def c6ops : List GcOp :=
  [.alloc 40, .hostStore 1024 64, .alloc 24, .hostStore 1064 32, .alloc 16,
   .hostStore 1088 16, .alloc 16, .hostStore 1104 16, .hostStore 1072 1088,
   .hostStore 1080 1104, .alloc 16, .hostStore 64 1024, .pushRoot 64,
   .hostStore 72 1064, .pushRoot 72, .alloc 16]

/-- A reachable in-cycle state where the reservation check passes
(`limit`, `next` non-null and `limit - s` does not fall below `next`) and yet
`alloc` panics "out of memory": the funded scan evacuates survivors past the
lowered `limit`. -/
def c6check : Bool :=
  match Gc.runOps 100 (Gc.new 128 240 1024) c6ops with
  | .ok g =>
      g.gcInProgress &&
      !(decide (g.limit = 0 ∨ g.next = 0 ∨
          wsub g.limit (align_up 24 ALIGNMENT) < g.next)) &&
      (match Gc.alloc 100 g 24 with
       | .error e => e = "out of memory"
       | .ok _ => false)
  | .error _ => false

theorem claim_C6_counterexample : c6check = true := by decide

theorem claim_C6_witness :
    c2g.gcInProgress = true ∧
    (((c2g.limit = 0 ∨ c2g.next = 0 ∨ wsub c2g.limit (align_up 8 ALIGNMENT) < c2g.next) →
        Gc.alloc 10 c2g 8 = .error "out of memory") ∧
     (¬(c2g.limit = 0 ∨ c2g.next = 0 ∨ wsub c2g.limit (align_up 8 ALIGNMENT) < c2g.next) →
        Gc.alloc 10 c2g 8 =
          match Gc.run_gc 10 { c2g with limit := c2g.limit - align_up 8 ALIGNMENT }
              (align_up 8 ALIGNMENT) with
          | .ok g2 => .ok (c2g.limit - align_up 8 ALIGNMENT,
              Gc.register_alloc g2 (align_up 8 ALIGNMENT))
          | .error e => .error e)) :=
  ⟨rfl, claim_C6_in_cycle_alloc 10 c2g 8 rfl⟩

/-- C7: in the idle state `alloc` takes the bump fast path exactly when
`next + rounded_size < limit` holds strictly (a null `limit` makes the
comparison false, so the extra null check is subsumed); on success it returns
the old `next` and advances `next` by the rounded size, and otherwise — in
particular when `next + rounded_size = limit` exactly — it begins a GC cycle
and allocates in-cycle. -/
theorem claim_C7_idle_fast_path (fuel : Nat) (g : Gc) (size0 : Nat)
    (hidle : g.gcInProgress = false) :
    (wadd g.next (align_up size0 ALIGNMENT) < g.limit →
      Gc.alloc fuel g size0 = .ok (g.next,
        Gc.register_alloc { g with next := g.next + align_up size0 ALIGNMENT }
          (align_up size0 ALIGNMENT))) ∧
    (¬ wadd g.next (align_up size0 ALIGNMENT) < g.limit →
      Gc.alloc fuel g size0 = do
        let g' ← Gc.begin_gc fuel g
        Gc.allocInCycle fuel g' (align_up size0 ALIGNMENT)) := by
  have key : Gc.alloc fuel g size0 =
      match Gc.alloc_at_next g (align_up size0 ALIGNMENT) with
      | some rg => .ok (rg.1, Gc.register_alloc rg.2 (align_up size0 ALIGNMENT))
      | none => (do
          let g' ← Gc.begin_gc fuel g
          Gc.allocInCycle fuel g' (align_up size0 ALIGNMENT)) := by
    unfold Gc.alloc
    rw [hidle]
    rfl
  constructor
  · intro hlt
    have hlim : g.limit ≠ 0 := by omega
    rw [key]
    unfold Gc.alloc_at_next
    rw [if_pos ⟨hlim, hlt⟩]
  · intro hge
    rw [key]
    unfold Gc.alloc_at_next
    rw [if_neg (fun hc => hge hc.2)]

theorem claim_C7_witness :
    (Gc.new 64 240 1024).gcInProgress = false ∧
    ((wadd (Gc.new 64 240 1024).next (align_up 16 ALIGNMENT) < (Gc.new 64 240 1024).limit →
      Gc.alloc 10 (Gc.new 64 240 1024) 16 = .ok ((Gc.new 64 240 1024).next,
        Gc.register_alloc { Gc.new 64 240 1024 with
            next := (Gc.new 64 240 1024).next + align_up 16 ALIGNMENT }
          (align_up 16 ALIGNMENT))) ∧
     (¬ wadd (Gc.new 64 240 1024).next (align_up 16 ALIGNMENT) < (Gc.new 64 240 1024).limit →
      Gc.alloc 10 (Gc.new 64 240 1024) 16 = do
        let g' ← Gc.begin_gc 10 (Gc.new 64 240 1024)
        Gc.allocInCycle 10 g' (align_up 16 ALIGNMENT))) :=
  ⟨rfl, claim_C7_idle_fast_path 10 (Gc.new 64 240 1024) 16 rfl⟩

/-- C8 (corrected): `Space::alloc` clamps the request to at least 1 byte
*before* rounding down to `ALIGNMENT`, so the resulting size is
`align_down (max s 1) ALIGNMENT`; any request below `ALIGNMENT` bytes
(including the spec's "minimum 1 byte") rounds down to 0 and yields the
null/empty space, and only requests of at least `ALIGNMENT` bytes produce a
non-null space (of size `align_down s ALIGNMENT ≥ ALIGNMENT`). -/
theorem claim_C8_space_alloc (base s : Nat) (hb : base ≠ 0) :
    (Space.allocAt base s).size = align_down (max s 1) ALIGNMENT ∧
    (s < ALIGNMENT → Space.allocAt base s = ⟨0, 0⟩) ∧
    (ALIGNMENT ≤ s → (Space.allocAt base s).start = base ∧
      ALIGNMENT ≤ (Space.allocAt base s).size ∧
      (Space.allocAt base s).size = align_down s ALIGNMENT) := by
  have hA : ALIGNMENT = 8 := rfl
  rw [hA]
  unfold Space.allocAt align_down
  rw [hA]
  dsimp only
  split
  next hz =>
    refine ⟨?_, fun h => rfl, fun h => ?_⟩
    · dsimp only
      omega
    · exfalso
      omega
  next hz =>
    refine ⟨?_, fun h => ?_, fun h => ⟨?_, ?_, ?_⟩⟩
    · dsimp only
    · exfalso
      omega
    · dsimp only
    · dsimp only
      omega
    · dsimp only
      omega

theorem claim_C8_witness :
    (4096 : Nat) ≠ 0 ∧
    ((Space.allocAt 4096 16).size = align_down (max 16 1) ALIGNMENT ∧
     (16 < ALIGNMENT → Space.allocAt 4096 16 = ⟨0, 0⟩) ∧
     (ALIGNMENT ≤ 16 → (Space.allocAt 4096 16).start = 4096 ∧
       ALIGNMENT ≤ (Space.allocAt 4096 16).size ∧
       (Space.allocAt 4096 16).size = align_down 16 ALIGNMENT)) :=
  ⟨by decide, claim_C8_space_alloc 4096 16 (by decide)⟩

/-- A request of 1 byte — "at least 1 byte" per the spec — yields the
null/empty space, not a non-null space of at least 1 byte. -/
theorem claim_C8_counterexample :
    (1 : Nat) ≥ 1 ∧ (Space.allocAt 4096 1).start = 0 ∧ (Space.allocAt 4096 1).size = 0 := by
  decide

/-- C9 (corrected): along every successful operation sequence the counters
`reads`, `writes`, `read_barriers`, `gc_cycles`, `all_time_allocated` and
`all_time_allocated_objs` are monotonically non-decreasing, and
`max_used ≥ used_memory()` holds immediately after every `alloc` (the only
place `max_used` is folded) — but not at *every* operation boundary: a
`read_barrier` that copies a survivor grows `used_memory` without touching
`max_used`. -/
theorem claim_C9_stats_monotone :
    (∀ ops fuel (g g' : Gc), Gc.runOps fuel g ops = .ok g' → Stats.le g.stats g'.stats) ∧
    (∀ fuel (g : Gc) s0 r (g' : Gc), Gc.alloc fuel g s0 = .ok (r, g') →
      Gc.used_memory g' ≤ g'.stats.maxUsed) :=
  ⟨fun ops fuel g g' h => Gc.runOps_stats ops fuel g g' h,
   fun _ _ _ _ _ h => (Gc.alloc_stats h).2.2.2⟩

theorem claim_C9_witness :
    exP (Gc.runOps 10 (Gc.new 64 240 1024) [.alloc 16, .writeBarrier 0])
      (fun g' => Stats.le (Gc.new 64 240 1024).stats g'.stats) ∧
    exP (Gc.alloc 10 (Gc.new 64 240 1024) 16)
      (fun rg => Gc.used_memory rg.2 ≤ rg.2.stats.maxUsed) := by
  constructor
  · have hok : exIsOk (Gc.runOps 10 (Gc.new 64 240 1024) [.alloc 16, .writeBarrier 0]) = true := by
      decide
    unfold exP
    split
    next g' heq =>
      exact claim_C9_stats_monotone.1 [.alloc 16, .writeBarrier 0] 10 (Gc.new 64 240 1024) g' heq
    next e heq =>
      rw [heq] at hok
      exact absurd hok (by simp [exIsOk])
  · have hok : exIsOk (Gc.alloc 10 (Gc.new 64 240 1024) 16) = true := by decide
    unfold exP
    split
    next rg heq =>
      exact claim_C9_stats_monotone.2 10 (Gc.new 64 240 1024) 16 rg.1 rg.2 (by rw [heq])
    next e heq =>
      rw [heq] at hok
      exact absurd hok (by simp [exIsOk])

def c9ops : List GcOp :=
  [.alloc 40, .hostStore 1024 64, .alloc 24, .hostStore 1064 32, .alloc 16,
   .hostStore 1088 16, .alloc 16, .hostStore 1104 16, .hostStore 1072 1088,
   .hostStore 1080 1104, .alloc 16, .hostStore 64 1024, .pushRoot 64,
   .hostStore 72 1064, .pushRoot 72, .alloc 16, .readBarrier 1200 0]

/-- A reachable state (the boundary right after a `read_barrier` that copied
a survivor) where `used_memory()` exceeds `max_used`. -/
def c9check : Bool :=
  match Gc.runOps 100 (Gc.new 128 240 1024) c9ops with
  | .ok g => decide (g.stats.maxUsed < Gc.used_memory g)
  | .error _ => false

theorem claim_C9_counterexample : c9check = true := by decide

/-- C10: after any successful operation sequence from a fresh collector,
`stats.read_barriers ≤ stats.reads`; each `read_barrier` call increments
`reads` by exactly one and increments `read_barriers` exactly when a cycle is
in progress and the loaded field points into from-space; and no operation
other than `read_barrier` modifies either counter. -/
theorem claim_C10_rb_le_reads :
    (∀ ops fuel size mask base (g' : Gc),
      Gc.runOps fuel (Gc.new size mask base) ops = .ok g' →
      g'.stats.readBarriers ≤ g'.stats.reads) ∧
    (∀ fuel (g : Gc) p idx v (g' : Gc), Gc.read_barrier fuel g p idx = .ok (v, g') →
      g'.stats.reads = g.stats.reads + 1 ∧
      g'.stats.readBarriers =
        (if g.gcInProgress && g.inFromSpace (Gc.readField g p idx) then
          g.stats.readBarriers + 1 else g.stats.readBarriers)) ∧
    (∀ fuel (g : Gc) op (g' : Gc), Gc.applyOp fuel g op = .ok g' →
      (∀ p i, op ≠ GcOp.readBarrier p i) →
      g'.stats.reads = g.stats.reads ∧ g'.stats.readBarriers = g.stats.readBarriers) :=
  ⟨fun ops fuel size mask base g' h =>
    Gc.runOps_rb_le ops fuel (Gc.new size mask base) g' h (Nat.le_refl 0),
   fun _ _ _ _ _ _ h => ⟨(Gc.read_barrier_stats h).1, (Gc.read_barrier_stats h).2.1⟩,
   fun _ _ _ _ h hop => Gc.applyOp_reads_frame h hop⟩

theorem claim_C10_witness :
    exP (Gc.runOps 10 (Gc.new 64 240 1024) [.alloc 16, .readBarrier 1024 0])
      (fun g' => g'.stats.readBarriers ≤ g'.stats.reads) ∧
    exP (Gc.read_barrier 10 c2g 1024 0)
      (fun vg => vg.2.stats.reads = c2g.stats.reads + 1 ∧
        vg.2.stats.readBarriers =
          (if c2g.gcInProgress && c2g.inFromSpace (Gc.readField c2g 1024 0) then
            c2g.stats.readBarriers + 1 else c2g.stats.readBarriers)) ∧
    exP (Gc.applyOp 10 c2g (GcOp.writeBarrier 0))
      (fun g' => g'.stats.reads = c2g.stats.reads ∧
        g'.stats.readBarriers = c2g.stats.readBarriers) := by
  refine ⟨?_, ?_, ?_⟩
  · have hok : exIsOk (Gc.runOps 10 (Gc.new 64 240 1024) [.alloc 16, .readBarrier 1024 0]) = true := by
      decide
    unfold exP
    split
    next g' heq =>
      exact claim_C10_rb_le_reads.1 [.alloc 16, .readBarrier 1024 0] 10 64 240 1024 g' heq
    next e heq =>
      rw [heq] at hok
      exact absurd hok (by simp [exIsOk])
  · have hok : exIsOk (Gc.read_barrier 10 c2g 1024 0) = true := by decide
    unfold exP
    split
    next vg heq =>
      exact claim_C10_rb_le_reads.2.1 10 c2g 1024 0 vg.1 vg.2 (by rw [heq])
    next e heq =>
      rw [heq] at hok
      exact absurd hok (by simp [exIsOk])
  · have hok : exIsOk (Gc.applyOp 10 c2g (GcOp.writeBarrier 0)) = true := by decide
    unfold exP
    split
    next g' heq =>
      exact claim_C10_rb_le_reads.2.2 10 c2g (GcOp.writeBarrier 0) g' heq
        (fun p i h => by cases h)
    next e heq =>
      rw [heq] at hok
      exact absurd hok (by simp [exIsOk])
